import Mathlib

/-!
Verification development for the `rayflex` ray tracer.

The definitions below are shallow embeddings of the Rust sources:
  * `src/vec3.rs`   : 3-vector algebra (here generic over a linear ordered field).
  * `src/aabb.rs`   : slab test `check_intersect`, octree construction
                      `setup_node`, inclusion test `triangle_inside`, and the
                      ordered child-traversal loop of `AABB::intercept`.
  * `src/color.rs`  : `RGB` operations (with their nonnegativity assertions),
                      `difference`, `distance2`.
  * `src/material.rs`, `src/light.rs` : materials and the three light kinds.
  * `src/three_d.rs`: `Plane`, `Sphere`, `Triangle` intersection.
  * `src/render.rs` : `trace_ray` and the adaptive sampler `calc_ray_box`.

Floating point numbers are modelled by exact arithmetic: `ℚ` where the code
only adds, multiplies, divides and compares, and `ℝ` where square roots are
taken.  The IEEE infinities produced by `Ray::new`'s reciprocal directions
(`1.0 / 0.0`) and the NaN-filtering behaviour of Rust's `f64::min` / `f64::max`
are modelled exactly by the type `Fv` below.
-/

/-- Components of a 3-vector (`Vec3` in `src/vec3.rs`), generic in the scalar
field so that the same definitions serve the rational and the real model. -/
structure Vec3 (α : Type) where
  x : α
  y : α
  z : α
deriving DecidableEq, Repr

namespace Vec3

variable {α : Type} [LinearOrderedField α]

/-- `impl Add for Vec3` in `src/vec3.rs`. -/
def add (a b : Vec3 α) : Vec3 α := ⟨a.x + b.x, a.y + b.y, a.z + b.z⟩

/-- `impl Sub for Vec3` in `src/vec3.rs`. -/
def sub (a b : Vec3 α) : Vec3 α := ⟨a.x - b.x, a.y - b.y, a.z - b.z⟩

/-- `impl Mul<Float> for Vec3` in `src/vec3.rs`. -/
def muls (a : Vec3 α) (k : α) : Vec3 α := ⟨a.x * k, a.y * k, a.z * k⟩

/-- `impl Div<Float> for Vec3` in `src/vec3.rs`. -/
def divs (a : Vec3 α) (k : α) : Vec3 α := ⟨a.x / k, a.y / k, a.z / k⟩

/-- `Vec3::dot` in `src/vec3.rs`. -/
def dot (a b : Vec3 α) : α := a.x * b.x + a.y * b.y + a.z * b.z

/-- `Vec3::cross` in `src/vec3.rs`. -/
def cross (a b : Vec3 α) : Vec3 α :=
  ⟨a.y * b.z - a.z * b.y, a.z * b.x - a.x * b.z, a.x * b.y - a.y * b.x⟩

/-- `Vec3::reflect` in `src/vec3.rs`: `self - normal * self.dot(normal) * 2.0`. -/
def reflect (a n : Vec3 α) : Vec3 α := a.sub ((n.muls (a.dot n)).muls 2)

/-- `Vec3::zero` in `src/vec3.rs`. -/
def zero : Vec3 α := ⟨0, 0, 0⟩

end Vec3

/-- `EPSILON` in `src/vec3.rs` (`1e-6`), as an exact rational. -/
def EPSILON : ℚ := 1 / 1000000

/-- The value `f64::MAX`, used as the initial `tmax` sentinel in
`AABB::intercept` (`src/aabb.rs`). -/
def f64MAX : ℚ := (2 ^ 1024 : ℚ) - 2 ^ 971

/-!
### Extended floating values

`Ray::new` (`src/lib.rs`) stores `inv_dir = 1.0 / dir` componentwise, so a zero
direction component yields `+∞` (a component that is exactly `0.0` carries a
positive sign when produced by subtraction of equal values, which is how edge
directions arise).  The slab test in `AABB::check_intersect` then multiplies
differences by these reciprocals; `0.0 * ∞` is IEEE NaN, and Rust's
`f64::min` / `f64::max` return the other operand when one argument is NaN.
`Fv` models this value space exactly over `ℚ`.
-/
inductive Fv : Type
  | nan : Fv
  | ninf : Fv
  | fin : ℚ → Fv
  | pinf : Fv
deriving DecidableEq, Repr

namespace Fv

/-- IEEE `<` on `f64` values: any comparison with NaN is false. -/
def lt : Fv → Fv → Bool
  | nan, _ => false
  | _, nan => false
  | ninf, ninf => false
  | ninf, _ => true
  | fin _, ninf => false
  | fin a, fin b => decide (a < b)
  | fin _, pinf => true
  | pinf, _ => false

/-- IEEE `>=` on `f64` values: any comparison with NaN is false. -/
def ge : Fv → Fv → Bool
  | nan, _ => false
  | _, nan => false
  | _, ninf => true
  | ninf, _ => false
  | fin a, fin b => decide (b ≤ a)
  | pinf, _ => true
  | fin _, pinf => false

/-- Rust `f64::min`: returns the other operand when one argument is NaN. -/
def rustMin : Fv → Fv → Fv
  | nan, b => b
  | a, nan => a
  | a, b => if lt a b then a else b

/-- Rust `f64::max`: returns the other operand when one argument is NaN. -/
def rustMax : Fv → Fv → Fv
  | nan, b => b
  | a, nan => a
  | a, b => if lt a b then b else a

/-- The reciprocal stored by `Ray::new` (`src/lib.rs`): `1.0 / dir`, which is
`+∞` for a (positively signed) zero component. -/
def inv (d : ℚ) : Fv := if d = 0 then pinf else fin (1 / d)

/-- IEEE multiplication of a finite difference by a stored reciprocal, as in
`(self.p_min.x - ray.orig.x) * ray.inv_dir.x`: multiplying `0.0` by an
infinity yields NaN. -/
def slabMul (d : ℚ) : Fv → Fv
  | fin q => fin (d * q)
  | pinf => if 0 < d then pinf else if d < 0 then ninf else nan
  | ninf => if 0 < d then ninf else if d < 0 then pinf else nan
  | nan => nan

/-- Division of an extended value by a positive factor (used to state how the
slab entry parameter rescales when the ray direction is scaled). -/
def scaleInv (k : ℚ) : Fv → Fv
  | fin q => fin (q / k)
  | x => x

end Fv

/-- `AABB::check_intersect` in `src/aabb.rs`, lines 376–400, returning
`some t_min` exactly when the function returns `true` (writing `*t = t_min`).
The box is given by its two corners, the ray by origin and direction (the
stored reciprocal being `Fv.inv` of each direction component). -/
def checkIntersect (pmin pmax o d : Vec3 ℚ) (tmax : ℚ) : Option Fv :=
  let ix := Fv.inv d.x
  let iy := Fv.inv d.y
  let iz := Fv.inv d.z
  let tx1 := Fv.slabMul (pmin.x - o.x) ix
  let tx2 := Fv.slabMul (pmax.x - o.x) ix
  let tmin1 := tx1.rustMin tx2
  let tmax1 := tx1.rustMax tx2
  let ty1 := Fv.slabMul (pmin.y - o.y) iy
  let ty2 := Fv.slabMul (pmax.y - o.y) iy
  let tmin2 := tmin1.rustMax (ty1.rustMin ty2)
  let tmax2 := tmax1.rustMin (ty1.rustMax ty2)
  let tz1 := Fv.slabMul (pmin.z - o.z) iz
  let tz2 := Fv.slabMul (pmax.z - o.z) iz
  let tmin3 := tmin2.rustMax (tz1.rustMin tz2)
  let tmax3 := tmax2.rustMin (tz1.rustMax tz2)
  if tmax3.ge (tmin3.rustMax (Fv.fin 0)) && tmin3.lt (Fv.fin tmax) then
    some tmin3
  else
    none

namespace Fv

theorem scaleInv_nan (k : ℚ) : scaleInv k nan = nan := rfl

theorem scaleInv_pinf (k : ℚ) : scaleInv k pinf = pinf := rfl

theorem scaleInv_ninf (k : ℚ) : scaleInv k ninf = ninf := rfl

theorem scaleInv_fin (k q : ℚ) : scaleInv k (fin q) = fin (q / k) := rfl

theorem inv_mul (d k : ℚ) (hk : k ≠ 0) : inv (d * k) = scaleInv k (inv d) := by
  unfold inv scaleInv
  by_cases hd : d = 0
  · simp [hd]
  · have h2 : d * k ≠ 0 := mul_ne_zero hd hk
    simp only [hd, h2, if_false]
    rw [div_div]

theorem slabMul_scale (diff k : ℚ) (f : Fv) :
    slabMul diff (scaleInv k f) = scaleInv k (slabMul diff f) := by
  cases f with
  | fin q => simp [slabMul, scaleInv, mul_div_assoc]
  | nan => rfl
  | pinf =>
      rw [scaleInv_pinf]
      by_cases h1 : 0 < diff
      · simp [slabMul, h1, scaleInv_pinf]
      · by_cases h2 : diff < 0 <;> simp [slabMul, h1, h2, scaleInv_ninf, scaleInv_nan]
  | ninf =>
      rw [scaleInv_ninf]
      by_cases h1 : 0 < diff
      · simp [slabMul, h1, scaleInv_ninf]
      · by_cases h2 : diff < 0 <;> simp [slabMul, h1, h2, scaleInv_pinf, scaleInv_nan]

theorem lt_scale (k : ℚ) (hk : 0 < k) (a b : Fv) :
    lt (scaleInv k a) (scaleInv k b) = lt a b := by
  cases a <;> cases b <;> simp [lt, scaleInv, div_lt_div_iff_of_pos_right, hk]

theorem ge_scale (k : ℚ) (hk : 0 < k) (a b : Fv) :
    ge (scaleInv k a) (scaleInv k b) = ge a b := by
  cases a <;> cases b <;> simp [ge, scaleInv, div_le_div_iff_of_pos_right, hk]

theorem scaleInv_eq_nan (k : ℚ) (a : Fv) : scaleInv k a = nan ↔ a = nan := by
  cases a <;> simp [scaleInv]

theorem rustMin_scale (k : ℚ) (hk : 0 < k) (a b : Fv) :
    rustMin (scaleInv k a) (scaleInv k b) = scaleInv k (rustMin a b) := by
  cases a <;> cases b <;> try rfl
  case fin.fin a b =>
    show rustMin (fin (a / k)) (fin (b / k)) = scaleInv k (rustMin (fin a) (fin b))
    by_cases h : a < b <;>
      simp [rustMin, lt, h, scaleInv_fin, div_lt_div_iff_of_pos_right, hk]

theorem rustMax_scale (k : ℚ) (hk : 0 < k) (a b : Fv) :
    rustMax (scaleInv k a) (scaleInv k b) = scaleInv k (rustMax a b) := by
  cases a <;> cases b <;> try rfl
  case fin.fin a b =>
    show rustMax (fin (a / k)) (fin (b / k)) = scaleInv k (rustMax (fin a) (fin b))
    by_cases h : a < b <;>
      simp [rustMax, lt, h, scaleInv_fin, div_lt_div_iff_of_pos_right, hk]

theorem scaleInv_zero (k : ℚ) : scaleInv k (fin 0) = fin 0 := by
  simp [scaleInv]

end Fv

namespace Fv

theorem lt_scale_fin (k : ℚ) (hk : 0 < k) (a : Fv) (q : ℚ) :
    lt (scaleInv k a) (fin (q / k)) = lt a (fin q) := by
  rw [← scaleInv_fin, lt_scale k hk]

theorem rustMax_scale_zero (k : ℚ) (hk : 0 < k) (a : Fv) :
    rustMax (scaleInv k a) (fin 0) = scaleInv k (rustMax a (fin 0)) := by
  conv_lhs => rw [← scaleInv_zero k]
  rw [rustMax_scale k hk]

end Fv

/-- C7 (amended): scaling the ray direction by a positive factor `k` leaves the
slab test's hit/no-hit answer unchanged provided the `tmax` bound is rescaled
by `1/k` as well, and the returned entry parameter is multiplied by `1/k`
(infinite and NaN entry values are unchanged).  This covers rays with zero
direction components, whose stored reciprocals are `+∞`. -/
theorem checkIntersect_scale (pmin pmax o d : Vec3 ℚ) (tmax k : ℚ) (hk : 0 < k) :
    checkIntersect pmin pmax o (d.muls k) (tmax / k)
      = (checkIntersect pmin pmax o d tmax).map (Fv.scaleInv k) := by
  unfold checkIntersect
  simp only [Vec3.muls, Fv.inv_mul _ _ hk.ne', Fv.slabMul_scale, Fv.rustMin_scale k hk,
    Fv.rustMax_scale k hk, Fv.rustMax_scale_zero k hk, Fv.ge_scale k hk, Fv.lt_scale_fin k hk,
    apply_ite (Option.map (Fv.scaleInv k)), Option.map_some', Option.map_none']

/-- C7 counterexample: with the direction scaled by `k = 1/2` but the *same*
`tmax_in = 3/2`, the slab test's hit/no-hit answer changes (the box
`[1,2]³` seen from the origin has entry parameter `1`, which rescales to `2`
and then fails `t_min < tmax_in`), so the claim as stated is false. -/
theorem checkIntersect_scale_cex :
    (checkIntersect ⟨1, 1, 1⟩ ⟨2, 2, 2⟩ ⟨0, 0, 0⟩ ((⟨1, 1, 1⟩ : Vec3 ℚ).muls (1 / 2))
        (3 / 2)).isSome
      ≠ (checkIntersect ⟨1, 1, 1⟩ ⟨2, 2, 2⟩ ⟨0, 0, 0⟩ ⟨1, 1, 1⟩ (3 / 2)).isSome := by
  norm_num [checkIntersect, Vec3.muls, Fv.inv, Fv.slabMul, Fv.rustMin, Fv.rustMax, Fv.lt, Fv.ge]

/-- Witness for `checkIntersect_scale` at a concrete input with a zero
direction component (whose stored reciprocal is `+∞`). -/
theorem checkIntersect_scale_wit :
    (0 : ℚ) < 2 ∧
      checkIntersect ⟨1, 1, -1⟩ ⟨2, 2, 1⟩ ⟨0, 0, 0⟩ ((⟨1, 1, 0⟩ : Vec3 ℚ).muls 2)
          ((3 : ℚ) / 2)
        = (checkIntersect ⟨1, 1, -1⟩ ⟨2, 2, 1⟩ ⟨0, 0, 0⟩ ⟨1, 1, 0⟩ 3).map
            (Fv.scaleInv 2) := by
  refine ⟨by norm_num, ?_⟩
  have h := checkIntersect_scale ⟨1, 1, -1⟩ ⟨2, 2, 1⟩ ⟨0, 0, 0⟩ ⟨1, 1, 0⟩ 3 2 (by norm_num)
  simpa using h

/-- `Triangle` in `src/three_d.rs`: three corner points, a material id, and the
mesh-local index `mesh_id`. -/
structure Triangle where
  p0 : Vec3 ℚ
  p1 : Vec3 ℚ
  p2 : Vec3 ℚ
  materialId : ℕ
  meshId : ℕ
deriving DecidableEq, Repr

/-- Junk triangle used for out-of-range list indexing (the Rust code would
panic there; well-formed inputs never reach it). -/
def defaultTri : Triangle := ⟨Vec3.zero, Vec3.zero, Vec3.zero, 0, 0⟩

/-- `MAX_NUM_TRIANGLES` in `src/aabb.rs`. -/
def MAX_NUM_TRIANGLES : ℕ := 200

/-- `MAX_DEPTH` in `src/aabb.rs`. -/
def MAX_DEPTH : ℕ := 5

/-- `AABB::point_inside` in `src/aabb.rs`, lines 66–73. -/
def pointInside (pmin pmax p : Vec3 ℚ) : Bool :=
  decide (pmin.x ≤ p.x) && decide (p.x ≤ pmax.x) && decide (pmin.y ≤ p.y) &&
    decide (p.y ≤ pmax.y) && decide (pmin.z ≤ p.z) && decide (p.z ≤ pmax.z)

/-- `AABB::triangle_inside` in `src/aabb.rs`, lines 74–91: a vertex inside the
box, or one of the three edge rays (with `tmax = 1.0`) passing the slab test. -/
def triangleInside (pmin pmax : Vec3 ℚ) (t : Triangle) : Bool :=
  pointInside pmin pmax t.p0 || pointInside pmin pmax t.p1 || pointInside pmin pmax t.p2 ||
    (checkIntersect pmin pmax t.p0 (t.p1.sub t.p0) 1).isSome ||
    (checkIntersect pmin pmax t.p1 (t.p2.sub t.p1) 1).isSome ||
    (checkIntersect pmin pmax t.p2 (t.p0.sub t.p2) 1).isSome

/-- Octree node built by `AABB::setup_node`: a leaf stores triangle indices,
an internal node stores child boxes. -/
inductive ATree : Type
  | leaf : Vec3 ℚ → Vec3 ℚ → List ℕ → ATree
  | node : Vec3 ℚ → Vec3 ℚ → List ATree → ATree

/-- Minimum corner of child octant `i` (`v_min[i]` in `AABB::setup_node`,
`src/aabb.rs` lines 138–171: bit 0 advances `x`, bit 1 advances `y`, bit 2
advances `z` by half the box extent). -/
def octantMin (pmin pmax : Vec3 ℚ) (i : ℕ) : Vec3 ℚ :=
  let inc := (pmax.sub pmin).divs 2
  let hx : Vec3 ℚ := ⟨inc.x, 0, 0⟩
  let hy : Vec3 ℚ := ⟨0, inc.y, 0⟩
  let hz : Vec3 ℚ := ⟨0, 0, inc.z⟩
  let base := [pmin, pmin.add hx, pmin.add hy, (pmin.add hx).add hy]
  if i < 4 then base.getD i Vec3.zero else (base.getD (i - 4) Vec3.zero).add hz

/-- Maximum corner of child octant `i` (`v_max[i] = v_min[i] + inc`). -/
def octantMax (pmin pmax : Vec3 ℚ) (i : ℕ) : Vec3 ℚ :=
  (octantMin pmin pmax i).add ((pmax.sub pmin).divs 2)

/-- The candidate filtering step of `AABB::setup_node` (`src/aabb.rs` lines
102–113): the root call passes an empty candidate list and filters the full
triangle array (pushing each kept triangle's `mesh_id`); recursive calls
filter the parent's candidate indices. -/
def vtrisOf (root : List Triangle) (pmin pmax : Vec3 ℚ) (tris : List ℕ) : List ℕ :=
  if tris.isEmpty then
    (root.filter (fun t => triangleInside pmin pmax t)).map (fun t => t.meshId)
  else
    tris.filter (fun tid => triangleInside pmin pmax (root.getD tid defaultTri))

/-- `AABB::setup_node` in `src/aabb.rs`, lines 92–179.  A node becomes a leaf
when `depth >= MAX_DEPTH` or fewer than `MAX_NUM_TRIANGLES` candidates
remain; otherwise it builds the eight child octants. -/
def setupNode (root : List Triangle) (pmin pmax : Vec3 ℚ) (tris : List ℕ) (depth : ℕ) :
    ATree :=
  let vtris := vtrisOf root pmin pmax tris
  if h : MAX_DEPTH ≤ depth ∨ vtris.length < MAX_NUM_TRIANGLES then
    ATree.leaf pmin pmax vtris
  else
    ATree.node pmin pmax
      ((List.range 8).map (fun i =>
        setupNode root (octantMin pmin pmax i) (octantMax pmin pmax i) vtris (depth + 1)))
termination_by MAX_DEPTH - depth
decreasing_by
  simp only [not_or, not_le] at h
  omega

/-- The box stored at the top of an octree node. -/
def ATree.box : ATree → Vec3 ℚ × Vec3 ℚ
  | ATree.leaf pmin pmax _ => (pmin, pmax)
  | ATree.node pmin pmax _ => (pmin, pmax)

/-- The invariant claimed for constructed octrees: every index stored in a
leaf refers to a triangle accepted by `triangle_inside` for that leaf's box,
and every internal node has exactly eight children whose boxes are the eight
half-extent octants of the parent box. -/
def nodeInv (root : List Triangle) : ATree → Prop
  | ATree.leaf pmin pmax tids =>
      ∀ tid ∈ tids, triangleInside pmin pmax (root.getD tid defaultTri) = true
  | ATree.node pmin pmax children =>
      children.length = 8 ∧
      (∀ i, i < 8 →
        (children.getD i (ATree.leaf Vec3.zero Vec3.zero [])).box
          = (octantMin pmin pmax i, octantMax pmin pmax i)) ∧
      (∀ c ∈ children, nodeInv root c)

theorem mem_vtris_inside (root : List Triangle)
    (hmesh : ∀ i, i < root.length → (root.getD i defaultTri).meshId = i)
    (pmin pmax : Vec3 ℚ) (tris : List ℕ) (tid : ℕ)
    (h : tid ∈ vtrisOf root pmin pmax tris) :
    triangleInside pmin pmax (root.getD tid defaultTri) = true := by
  unfold vtrisOf at h
  by_cases he : tris.isEmpty
  · rw [if_pos he] at h
    obtain ⟨t, ht, rfl⟩ := List.mem_map.mp h
    obtain ⟨htr, hin⟩ := List.mem_filter.mp ht
    obtain ⟨i, hi, hget⟩ := List.mem_iff_getElem.mp htr
    have hgd : root.getD i defaultTri = t := by
      rw [List.getD_eq_getElem root defaultTri hi, hget]
    have hid : t.meshId = i := by rw [← hgd]; exact hmesh i hi
    rw [hid, hgd]
    exact hin
  · rw [if_neg he] at h
    exact (List.mem_filter.mp h).2

/-- C8: for every octree produced by `setup_node` (with canonically indexed
triangles, i.e. `mesh_id` equals the position in the triangle array), every
index stored in a leaf refers to a triangle accepted by the engine's own
inclusion predicate `triangle_inside` for that leaf's box, and every internal
node has exactly eight children whose boxes are the eight half-extent octants
of the parent box. -/
theorem setupNode_invariant (root : List Triangle)
    (hmesh : ∀ i, i < root.length → (root.getD i defaultTri).meshId = i)
    (pmin pmax : Vec3 ℚ) (tris : List ℕ) (depth : ℕ) :
    nodeInv root (setupNode root pmin pmax tris depth) := by
  have key : ∀ fuel depth, MAX_DEPTH - depth ≤ fuel → ∀ pmin pmax tris,
      nodeInv root (setupNode root pmin pmax tris depth) := by
    intro fuel
    induction fuel with
    | zero =>
        intro depth hd pmin pmax tris
        rw [setupNode]
        have hle : MAX_DEPTH ≤ depth := by omega
        rw [dif_pos (Or.inl hle)]
        simp only [nodeInv]
        intro tid htid
        exact mem_vtris_inside root hmesh pmin pmax tris tid htid
    | succ n ih =>
        intro depth hd pmin pmax tris
        rw [setupNode]
        split
        · simp only [nodeInv]
          intro tid htid
          exact mem_vtris_inside root hmesh pmin pmax tris tid htid
        · rename_i hnotleaf
          have hdepth : depth < MAX_DEPTH := by
            rcases not_or.mp hnotleaf with ⟨h1, _⟩
            omega
          simp only [nodeInv]
          refine ⟨by simp, ?_, ?_⟩
          · intro i hi
            have hlen : i < ((List.range 8).map (fun i =>
                setupNode root (octantMin pmin pmax i) (octantMax pmin pmax i)
                  (vtrisOf root pmin pmax tris) (depth + 1))).length := by
              simpa using hi
            rw [List.getD_eq_getElem _ _ hlen]
            simp only [List.getElem_map, List.getElem_range]
            rw [setupNode]
            split <;> rfl
          · intro c hc
            obtain ⟨i, hi, rfl⟩ := List.mem_map.mp hc
            exact ih (depth + 1) (by omega) _ _ _
  exact key (MAX_DEPTH - depth) depth le_rfl pmin pmax tris

/-- Witness for `setupNode_invariant`: a one-triangle array with canonical
`mesh_id`, octree built over the unit box. -/
theorem setupNode_invariant_wit :
    (∀ i, i < ([(⟨⟨1/2, 1/2, 1/2⟩, ⟨2, 0, 0⟩, ⟨0, 2, 0⟩, 0, 0⟩ : Triangle)] : List Triangle).length →
        (([(⟨⟨1/2, 1/2, 1/2⟩, ⟨2, 0, 0⟩, ⟨0, 2, 0⟩, 0, 0⟩ : Triangle)] : List Triangle).getD i
            defaultTri).meshId = i) ∧
      nodeInv [(⟨⟨1/2, 1/2, 1/2⟩, ⟨2, 0, 0⟩, ⟨0, 2, 0⟩, 0, 0⟩ : Triangle)]
        (setupNode [(⟨⟨1/2, 1/2, 1/2⟩, ⟨2, 0, 0⟩, ⟨0, 2, 0⟩, 0, 0⟩ : Triangle)]
          ⟨0, 0, 0⟩ ⟨1, 1, 1⟩ [] 0) := by
  have hmesh : ∀ i,
      i < ([(⟨⟨1/2, 1/2, 1/2⟩, ⟨2, 0, 0⟩, ⟨0, 2, 0⟩, 0, 0⟩ : Triangle)] : List Triangle).length →
      (([(⟨⟨1/2, 1/2, 1/2⟩, ⟨2, 0, 0⟩, ⟨0, 2, 0⟩, 0, 0⟩ : Triangle)] : List Triangle).getD i
          defaultTri).meshId = i := by
    intro i hi
    simp only [List.length_singleton] at hi
    interval_cases i
    rfl
  exact ⟨hmesh, setupNode_invariant _ hmesh ⟨0, 0, 0⟩ ⟨1, 1, 1⟩ [] 0⟩

/-- `Plane::intercept` in `src/three_d.rs`, lines 146–167: reject near-parallel
rays (`|d·n| < EPSILON`), compute `t0 = (p − o)·n / (d·n)`, and accept exactly
when `tmin < t0 < tmax`, returning the tightened `tmax`. -/
def planeIntercept {α : Type} [LinearOrderedField α] (eps : α) (ppoint pnormal o d : Vec3 α)
    (tmin tmax : α) : Option α :=
  let dd := d.dot pnormal
  if |dd| < eps then none
  else
    let t0 := ((ppoint.sub o).dot pnormal) / dd
    if t0 ≤ tmin ∨ tmax ≤ t0 then none else some t0

/-- The three midplane normals used by `AABB::intercept` (`src/aabb.rs` lines
291–317): axis 0 is the `yz` plane (normal `x`), axis 1 the `xz` plane
(normal `y`), axis 2 the `xy` plane (normal `z`); `Plane::new` normalizes the
normal, which is the identity on these unit vectors. -/
def unitAxis : Fin 3 → Vec3 ℚ
  | 0 => ⟨1, 0, 0⟩
  | 1 => ⟨0, 1, 0⟩
  | 2 => ⟨0, 0, 1⟩

/-- The midplane crossing test of the traversal loop: `plane_??.intercept`
with lower bound `tmin0` and `tmax` initialized to `f64::MAX`. -/
def crossT (o d mid : Vec3 ℚ) (tmin0 : ℚ) (a : Fin 3) : Option ℚ :=
  planeIntercept EPSILON mid (unitAxis a) o d tmin0 f64MAX

/-- The pure crossing parameter of midplane `a` (independent of the moving
lower bound). -/
def tAxis (o d mid : Vec3 ℚ) (a : Fin 3) : ℚ :=
  ((mid.sub o).dot (unitAxis a)) / (d.dot (unitAxis a))

/-- `AABB::nearest_node` in `src/aabb.rs`, lines 230–247: the child index from
the sign of `p - mid` (Rust `is_sign_positive` is true on the positive zero
that subtraction of equal values produces). -/
def nearestNode (p mid : Vec3 ℚ) : ℕ :=
  (if 0 ≤ p.x - mid.x then 1 else 0) + (if 0 ≤ p.y - mid.y then 2 else 0) +
    (if 0 ≤ p.z - mid.z then 4 else 0)

/-- One iteration of the next-child selection in `AABB::intercept`
(`src/aabb.rs` lines 333–368): intersect the three midplanes (results `r?`,
missed planes leave their `t` at `f64::MAX`), require the crossing to lie
strictly beyond the node entry parameter `taabb` (flags `p?`, with values at
or below `taabb` reset to `f64::MAX`, giving `d?`), then keep the flag whose
crossing is nearest by the written comparisons (`q?`; the source's line 357
literally reads `t_xy <= t_xz && t_yz <= t_yz`, modelled verbatim).  On
success the selection returns the flipped axis (the position of the first
true flag) and the new lower bound `t_yz.min(t_xy).min(t_xz)`. -/
def selCore (taabb : ℚ) (s : Fin 3 → Bool) (tv : Fin 3 → ℚ) : Option (Fin 3 × ℚ) :=
  let p : Fin 3 → Bool := fun a => s a && decide (taabb < tv a)
  let dd : Fin 3 → ℚ := fun a => if tv a ≤ taabb then f64MAX else tv a
  let q0 := p 0 && decide (dd 0 ≤ dd 1) && decide (dd 0 ≤ dd 2)
  let q1 := p 1 && decide (dd 1 ≤ dd 0) && decide (dd 1 ≤ dd 2)
  let q2 := p 2 && decide (dd 2 ≤ dd 1) && decide (dd 0 ≤ dd 0)
  let newT := min (min (dd 0) (dd 2)) (dd 1)
  if q0 then some (0, newT)
  else if q1 then some (1, newT)
  else if q2 then some (2, newT)
  else none

/-- `stepSel` instantiates the selection with the midplane test results:
`s a` is whether `plane_a.intercept` returned true, `tv a` the value it left
in its `t` out-parameter (`f64::MAX` when it missed). -/
def stepSel (o d mid : Vec3 ℚ) (taabb tmin0 : ℚ) : Option (Fin 3 × ℚ) :=
  selCore taabb (fun a => (crossT o d mid tmin0 a).isSome)
    (fun a => (crossT o d mid tmin0 a).getD f64MAX)

/-- The child-visit loop of `AABB::intercept` (`src/aabb.rs` lines 322–370)
along the no-hit path: record the current child, select the next crossing,
flip the corresponding axis bit of the child index, and continue (at most
four iterations, as in the source's `for _i in 0..4`). -/
def travLoop (o d mid : Vec3 ℚ) (taabb : ℚ) : ℕ → ℕ → ℚ → List ℕ
  | 0, _, _ => []
  | Nat.succ fuel, idx, tmin0 =>
      idx ::
        (match stepSel o d mid taabb tmin0 with
          | none => []
          | some (a, t2) => travLoop o d mid taabb fuel (idx ^^^ (1 <<< a.val)) t2)

/-- The children visited by `AABB::intercept` on an internal node when no
child reports a hit: the loop starts at `nearest_node` of the entry point. -/
def aabbVisit (o d mid : Vec3 ℚ) (taabb tmin : ℚ) : List ℕ :=
  travLoop o d mid taabb 4 (nearestNode (o.add (d.muls taabb)) mid) tmin

/-- Midplane `a` has a crossing selectable at lower bound `tmin0`: the plane
test succeeds and the crossing lies strictly beyond the node entry
parameter. -/
def validCross (o d mid : Vec3 ℚ) (taabb tmin0 : ℚ) (a : Fin 3) : Prop :=
  ∃ t, crossT o d mid tmin0 a = some t ∧ taabb < t

theorem crossT_some_iff (o d mid : Vec3 ℚ) (tmin0 : ℚ) (a : Fin 3) (t : ℚ) :
    crossT o d mid tmin0 a = some t ↔
      EPSILON ≤ |d.dot (unitAxis a)| ∧ t = tAxis o d mid a ∧ tmin0 < t ∧ t < f64MAX := by
  unfold crossT planeIntercept tAxis
  by_cases hd : |d.dot (unitAxis a)| < EPSILON
  · rw [if_pos hd]
    constructor
    · intro h
      cases h
    · rintro ⟨h1, _, _, _⟩
      exact absurd h1 (not_le.mpr hd)
  · simp only [hd, if_false]
    push_neg at hd
    by_cases hr : ((mid.sub o).dot (unitAxis a)) / (d.dot (unitAxis a)) ≤ tmin0 ∨
        f64MAX ≤ ((mid.sub o).dot (unitAxis a)) / (d.dot (unitAxis a))
    · simp only [hr, if_true]
      constructor
      · intro h
        exact absurd h (by simp)
      · rintro ⟨h1, rfl, h3, h4⟩
        rcases hr with hr | hr
        · linarith
        · linarith
    · simp only [hr, if_false]
      push_neg at hr
      constructor
      · intro h
        injection h with h
        subst h
        exact ⟨hd, rfl, hr.1, hr.2⟩
      · rintro ⟨h1, rfl, h3, h4⟩
        rfl


theorem selCore_cases (taabb tmin0 : ℚ) (s : Fin 3 → Bool) (tv : Fin 3 → ℚ)
    (Hs : ∀ a, s a = true → tmin0 < tv a ∧ tv a < f64MAX)
    (Hn : ∀ a, s a = false → tv a = f64MAX) (b : Fin 3) :
    (s b = true ∧ taabb < tv b ∧ (if tv b ≤ taabb then f64MAX else tv b) = tv b ∧
        tv b < f64MAX) ∨
      (¬(s b = true ∧ taabb < tv b) ∧ (if tv b ≤ taabb then f64MAX else tv b) = f64MAX) := by
  by_cases hsb : s b = true
  · by_cases htb : taabb < tv b
    · exact Or.inl ⟨hsb, htb, if_neg (not_le.mpr htb), (Hs b hsb).2⟩
    · refine Or.inr ⟨fun hc => htb hc.2, ?_⟩
      rw [if_pos (not_lt.mp htb)]
  · refine Or.inr ⟨fun hc => hsb hc.1, ?_⟩
    rw [Hn b (by simpa using hsb), ite_self]

theorem selCore_some_char (taabb tmin0 : ℚ) (s : Fin 3 → Bool) (tv : Fin 3 → ℚ)
    (Hs : ∀ a, s a = true → tmin0 < tv a ∧ tv a < f64MAX)
    (Hn : ∀ a, s a = false → tv a = f64MAX)
    (a : Fin 3) (t2 : ℚ) (h : selCore taabb s tv = some (a, t2)) :
    s a = true ∧ taabb < tv a ∧ tmin0 < t2 ∧ t2 = tv a ∧
      ∀ b, s b = true → taabb < tv b → tv a ≤ tv b := by
  have hC := selCore_cases taabb tmin0 s tv Hs Hn
  have hvalidD : ∀ b, (if tv b ≤ taabb then f64MAX else tv b) < f64MAX →
      s b = true ∧ taabb < tv b ∧ (if tv b ≤ taabb then f64MAX else tv b) = tv b := by
    intro b hb
    rcases hC b with ⟨hs, ht, hd, hm⟩ | ⟨hv, hd⟩
    · exact ⟨hs, ht, hd⟩
    · rw [hd] at hb
      exact absurd hb (lt_irrefl _)
  have hdval : ∀ b, s b = true → taabb < tv b →
      (if tv b ≤ taabb then f64MAX else tv b) = tv b := by
    intro b hs ht
    exact if_neg (not_le.mpr ht)
  have hdle : ∀ b, (if tv b ≤ taabb then f64MAX else tv b) ≤ f64MAX := by
    intro b
    rcases hC b with ⟨_, _, hd, hm⟩ | ⟨_, hd⟩
    · rw [hd]; exact le_of_lt hm
    · rw [hd]
  simp only [selCore] at h
  by_cases hq0 : (s 0 && decide (taabb < tv 0) &&
      decide ((if tv 0 ≤ taabb then f64MAX else tv 0) ≤ (if tv 1 ≤ taabb then f64MAX else tv 1)) &&
      decide ((if tv 0 ≤ taabb then f64MAX else tv 0) ≤ (if tv 2 ≤ taabb then f64MAX else tv 2)))
      = true
  · rw [if_pos hq0] at h
    injection h with h
    cases h
    simp only [Bool.and_eq_true, decide_eq_true_eq] at hq0
    obtain ⟨⟨⟨hs0, ht0⟩, h01⟩, h02⟩ := hq0
    have hd0 := hdval 0 hs0 ht0
    have hmin : min (min (if tv 0 ≤ taabb then f64MAX else tv 0)
        (if tv 2 ≤ taabb then f64MAX else tv 2)) (if tv 1 ≤ taabb then f64MAX else tv 1)
        = tv 0 := by
      rw [min_eq_left h02, min_eq_left h01, hd0]
    refine ⟨hs0, ht0, ?_, hmin, ?_⟩
    · rw [hmin]; exact (Hs 0 hs0).1
    · intro b hsb htb
      have hdb := hdval b hsb htb
      fin_cases b
      · exact le_refl _
      · rw [← hdb, ← hd0]; exact h01
      · rw [← hdb, ← hd0]; exact h02
  · rw [if_neg hq0] at h
    by_cases hq1 : (s 1 && decide (taabb < tv 1) &&
        decide ((if tv 1 ≤ taabb then f64MAX else tv 1) ≤ (if tv 0 ≤ taabb then f64MAX else tv 0)) &&
        decide ((if tv 1 ≤ taabb then f64MAX else tv 1) ≤ (if tv 2 ≤ taabb then f64MAX else tv 2)))
        = true
    · rw [if_pos hq1] at h
      injection h with h
      cases h
      simp only [Bool.and_eq_true, decide_eq_true_eq] at hq1
      obtain ⟨⟨⟨hs1, ht1⟩, h10⟩, h12⟩ := hq1
      have hd1 := hdval 1 hs1 ht1
      have hmin : min (min (if tv 0 ≤ taabb then f64MAX else tv 0)
          (if tv 2 ≤ taabb then f64MAX else tv 2)) (if tv 1 ≤ taabb then f64MAX else tv 1)
          = tv 1 := by
        rw [min_eq_right (le_min h10 h12), hd1]
      refine ⟨hs1, ht1, ?_, hmin, ?_⟩
      · rw [hmin]; exact (Hs 1 hs1).1
      · intro b hsb htb
        have hdb := hdval b hsb htb
        fin_cases b
        · rw [← hdb, ← hd1]; exact h10
        · exact le_refl _
        · rw [← hdb, ← hd1]; exact h12
    · rw [if_neg hq1] at h
      by_cases hq2 : (s 2 && decide (taabb < tv 2) &&
          decide ((if tv 2 ≤ taabb then f64MAX else tv 2) ≤ (if tv 1 ≤ taabb then f64MAX else tv 1)) &&
          decide ((if tv 0 ≤ taabb then f64MAX else tv 0) ≤ (if tv 0 ≤ taabb then f64MAX else tv 0)))
          = true
      · rw [if_pos hq2] at h
        injection h with h
        cases h
        simp only [Bool.and_eq_true, decide_eq_true_eq] at hq2
        obtain ⟨⟨⟨hs2, ht2⟩, h21⟩, _⟩ := hq2
        have hd2 := hdval 2 hs2 ht2
        have h20 : (if tv 2 ≤ taabb then f64MAX else tv 2) ≤
            (if tv 0 ≤ taabb then f64MAX else tv 0) := by
          by_contra hcon
          push_neg at hcon
          have hm2 : (if tv 2 ≤ taabb then f64MAX else tv 2) < f64MAX := by
            rw [hd2]; exact (Hs 2 hs2).2
          obtain ⟨hs0, ht0, hd0⟩ := hvalidD 0 (lt_trans hcon hm2)
          have h1lt : (if tv 1 ≤ taabb then f64MAX else tv 1) <
              (if tv 0 ≤ taabb then f64MAX else tv 0) := by
            by_contra hcon2
            push_neg at hcon2
            apply hq0
            simp only [Bool.and_eq_true, decide_eq_true_eq]
            exact ⟨⟨⟨hs0, ht0⟩, hcon2⟩, le_of_lt hcon⟩
          obtain ⟨hs1, ht1, hd1⟩ := hvalidD 1 (lt_trans h1lt (lt_trans hcon hm2))
          apply hq1
          simp only [Bool.and_eq_true, decide_eq_true_eq]
          refine ⟨⟨⟨hs1, ht1⟩, le_of_lt h1lt⟩, ?_⟩
          linarith
        have hmin : min (min (if tv 0 ≤ taabb then f64MAX else tv 0)
            (if tv 2 ≤ taabb then f64MAX else tv 2)) (if tv 1 ≤ taabb then f64MAX else tv 1)
            = tv 2 := by
          rw [min_comm (if tv 0 ≤ taabb then f64MAX else tv 0), min_eq_left h20,
            min_eq_left h21, hd2]
        refine ⟨hs2, ht2, ?_, hmin, ?_⟩
        · rw [hmin]; exact (Hs 2 hs2).1
        · intro b hsb htb
          have hdb := hdval b hsb htb
          fin_cases b
          · rw [← hdb, ← hd2]; exact h20
          · rw [← hdb, ← hd2]; exact h21
          · exact le_refl _
      · rw [if_neg hq2] at h
        cases h

theorem selCore_none_char (taabb tmin0 : ℚ) (s : Fin 3 → Bool) (tv : Fin 3 → ℚ)
    (Hs : ∀ a, s a = true → tmin0 < tv a ∧ tv a < f64MAX)
    (Hn : ∀ a, s a = false → tv a = f64MAX) :
    selCore taabb s tv = none ↔ ∀ b, ¬(s b = true ∧ taabb < tv b) := by
  have hC := selCore_cases taabb tmin0 s tv Hs Hn
  have hvalidD : ∀ b, (if tv b ≤ taabb then f64MAX else tv b) < f64MAX →
      s b = true ∧ taabb < tv b ∧ (if tv b ≤ taabb then f64MAX else tv b) = tv b := by
    intro b hb
    rcases hC b with ⟨hs, ht, hd, hm⟩ | ⟨hv, hd⟩
    · exact ⟨hs, ht, hd⟩
    · rw [hd] at hb
      exact absurd hb (lt_irrefl _)
  constructor
  · intro h b hvb
    obtain ⟨hsb, htb⟩ := hvb
    have hdb : (if tv b ≤ taabb then f64MAX else tv b) = tv b := if_neg (not_le.mpr htb)
    have hmb : (if tv b ≤ taabb then f64MAX else tv b) < f64MAX := by
      rw [hdb]; exact (Hs b hsb).2
    simp only [selCore] at h
    by_cases hq0 : (s 0 && decide (taabb < tv 0) &&
        decide ((if tv 0 ≤ taabb then f64MAX else tv 0) ≤ (if tv 1 ≤ taabb then f64MAX else tv 1)) &&
        decide ((if tv 0 ≤ taabb then f64MAX else tv 0) ≤ (if tv 2 ≤ taabb then f64MAX else tv 2)))
        = true
    · rw [if_pos hq0] at h; cases h
    rw [if_neg hq0] at h
    by_cases hq1 : (s 1 && decide (taabb < tv 1) &&
        decide ((if tv 1 ≤ taabb then f64MAX else tv 1) ≤ (if tv 0 ≤ taabb then f64MAX else tv 0)) &&
        decide ((if tv 1 ≤ taabb then f64MAX else tv 1) ≤ (if tv 2 ≤ taabb then f64MAX else tv 2)))
        = true
    · rw [if_pos hq1] at h; cases h
    rw [if_neg hq1] at h
    by_cases hq2 : (s 2 && decide (taabb < tv 2) &&
        decide ((if tv 2 ≤ taabb then f64MAX else tv 2) ≤ (if tv 1 ≤ taabb then f64MAX else tv 1)) &&
        decide ((if tv 0 ≤ taabb then f64MAX else tv 0) ≤ (if tv 0 ≤ taabb then f64MAX else tv 0)))
        = true
    · rw [if_pos hq2] at h; cases h
    -- no flag fired, yet axis `b` is a valid crossing: find the least displayed
    -- value and show its flag fired, a contradiction
    rcases le_total (if tv 0 ≤ taabb then f64MAX else tv 0)
        (if tv 1 ≤ taabb then f64MAX else tv 1) with h01 | h10
    · rcases le_total (if tv 0 ≤ taabb then f64MAX else tv 0)
          (if tv 2 ≤ taabb then f64MAX else tv 2) with h02 | h20
      · have hm0 : (if tv 0 ≤ taabb then f64MAX else tv 0) < f64MAX := by
          have hble : (if tv 0 ≤ taabb then f64MAX else tv 0) ≤
              (if tv b ≤ taabb then f64MAX else tv b) := by
            fin_cases b
            · exact le_refl _
            · exact h01
            · exact h02
          exact lt_of_le_of_lt hble hmb
        obtain ⟨hs0, ht0, _⟩ := hvalidD 0 hm0
        apply hq0
        simp only [Bool.and_eq_true, decide_eq_true_eq]
        exact ⟨⟨⟨hs0, ht0⟩, h01⟩, h02⟩
      · have hm2 : (if tv 2 ≤ taabb then f64MAX else tv 2) < f64MAX := by
          have hble : (if tv 2 ≤ taabb then f64MAX else tv 2) ≤
              (if tv b ≤ taabb then f64MAX else tv b) := by
            fin_cases b
            · exact le_trans h20 (le_refl _)
            · exact le_trans h20 h01
            · exact le_refl _
          exact lt_of_le_of_lt hble hmb
        obtain ⟨hs2, ht2, _⟩ := hvalidD 2 hm2
        apply hq2
        simp only [Bool.and_eq_true, decide_eq_true_eq]
        exact ⟨⟨⟨hs2, ht2⟩, le_trans h20 h01⟩, le_refl _⟩
    · rcases le_total (if tv 1 ≤ taabb then f64MAX else tv 1)
          (if tv 2 ≤ taabb then f64MAX else tv 2) with h12 | h21
      · have hm1 : (if tv 1 ≤ taabb then f64MAX else tv 1) < f64MAX := by
          have hble : (if tv 1 ≤ taabb then f64MAX else tv 1) ≤
              (if tv b ≤ taabb then f64MAX else tv b) := by
            fin_cases b
            · exact h10
            · exact le_refl _
            · exact h12
          exact lt_of_le_of_lt hble hmb
        obtain ⟨hs1, ht1, _⟩ := hvalidD 1 hm1
        apply hq1
        simp only [Bool.and_eq_true, decide_eq_true_eq]
        exact ⟨⟨⟨hs1, ht1⟩, h10⟩, h12⟩
      · have hm2 : (if tv 2 ≤ taabb then f64MAX else tv 2) < f64MAX := by
          have hble : (if tv 2 ≤ taabb then f64MAX else tv 2) ≤
              (if tv b ≤ taabb then f64MAX else tv b) := by
            fin_cases b
            · exact le_trans h21 h10
            · exact h21
            · exact le_refl _
          exact lt_of_le_of_lt hble hmb
        obtain ⟨hs2, ht2, _⟩ := hvalidD 2 hm2
        apply hq2
        simp only [Bool.and_eq_true, decide_eq_true_eq]
        exact ⟨⟨⟨hs2, ht2⟩, h21⟩, le_refl _⟩
  · intro h
    have hp : ∀ b, (s b && decide (taabb < tv b)) = false := by
      intro b
      by_cases hsb : s b = true
      · have : ¬ taabb < tv b := fun hc => h b ⟨hsb, hc⟩
        simp [this]
      · simp [Bool.not_eq_true _ ▸ hsb]
    simp only [selCore]
    rw [if_neg, if_neg, if_neg]
    · intro hc
      rw [Bool.and_eq_true, Bool.and_eq_true] at hc
      rw [hp 2] at hc
      exact Bool.false_ne_true hc.1.1
    · intro hc
      rw [Bool.and_eq_true, Bool.and_eq_true] at hc
      rw [hp 1] at hc
      exact Bool.false_ne_true hc.1.1
    · intro hc
      rw [Bool.and_eq_true, Bool.and_eq_true] at hc
      rw [hp 0] at hc
      exact Bool.false_ne_true hc.1.1

theorem stepSel_hyps (o d mid : Vec3 ℚ) (tmin0 : ℚ) :
    (∀ a, (crossT o d mid tmin0 a).isSome = true →
        tmin0 < (crossT o d mid tmin0 a).getD f64MAX ∧
          (crossT o d mid tmin0 a).getD f64MAX < f64MAX) ∧
      ∀ a, (crossT o d mid tmin0 a).isSome = false →
        (crossT o d mid tmin0 a).getD f64MAX = f64MAX := by
  constructor
  · intro a ha
    obtain ⟨t, ht⟩ := Option.isSome_iff_exists.mp ha
    obtain ⟨_, _, h3, h4⟩ := (crossT_some_iff o d mid tmin0 a t).mp ht
    rw [ht, Option.getD_some]
    exact ⟨h3, h4⟩
  · intro a ha
    have hnone : crossT o d mid tmin0 a = none := by
      cases hc : crossT o d mid tmin0 a
      · rfl
      · rw [hc] at ha; cases ha
    rw [hnone, Option.getD_none]

theorem stepSel_some_char (o d mid : Vec3 ℚ) (taabb tmin0 : ℚ) (a : Fin 3) (t2 : ℚ)
    (h : stepSel o d mid taabb tmin0 = some (a, t2)) :
    (crossT o d mid tmin0 a = some t2 ∧ taabb < t2 ∧ tmin0 < t2 ∧
        t2 = tAxis o d mid a) ∧
      ∀ b tb, crossT o d mid tmin0 b = some tb → taabb < tb → t2 ≤ tb := by
  obtain ⟨Hs, Hn⟩ := stepSel_hyps o d mid tmin0
  unfold stepSel at h
  obtain ⟨hsa, hta, hlt, ht2, hmin⟩ := selCore_some_char taabb tmin0 _ _ Hs Hn a t2 h
  obtain ⟨t, ht⟩ := Option.isSome_iff_exists.mp hsa
  have htv : (crossT o d mid tmin0 a).getD f64MAX = t := by rw [ht, Option.getD_some]
  obtain ⟨_, haxis, _, _⟩ := (crossT_some_iff o d mid tmin0 a t).mp ht
  refine ⟨⟨?_, ?_, hlt, ?_⟩, ?_⟩
  · rw [ht, ht2, htv]
  · rw [ht2, htv]
    rw [htv] at hta
    exact hta
  · rw [ht2, htv, haxis]
  · intro b tb hb htb
    have hsb : (crossT o d mid tmin0 b).isSome = true := by rw [hb]; rfl
    have htvb : (crossT o d mid tmin0 b).getD f64MAX = tb := by rw [hb, Option.getD_some]
    have := hmin b hsb (by rw [htvb]; exact htb)
    rw [htv, htvb] at this
    rw [ht2, htv]
    exact this

theorem stepSel_none_iff (o d mid : Vec3 ℚ) (taabb tmin0 : ℚ) :
    stepSel o d mid taabb tmin0 = none ↔ ∀ b, ¬ validCross o d mid taabb tmin0 b := by
  obtain ⟨Hs, Hn⟩ := stepSel_hyps o d mid tmin0
  unfold stepSel
  rw [selCore_none_char taabb tmin0 _ _ Hs Hn]
  constructor
  · intro h b hv
    obtain ⟨t, ht, htaabb⟩ := hv
    apply h b
    refine ⟨by rw [ht]; rfl, ?_⟩
    rw [ht, Option.getD_some]
    exact htaabb
  · intro h b hv
    obtain ⟨hsb, htb⟩ := hv
    obtain ⟨t, ht⟩ := Option.isSome_iff_exists.mp hsb
    rw [ht, Option.getD_some] at htb
    exact h b ⟨t, ht, htb⟩

theorem xor_axis_lt8 : ∀ i, i < 8 → ∀ a : Fin 3, i ^^^ (1 <<< a.val) < 8 := by
  decide

theorem axis_masks_nodup (i : ℕ) (a b c : Fin 3) (hab : a ≠ b) (hac : a ≠ c) (hbc : b ≠ c) :
    List.Nodup [i, i ^^^ (1 <<< a.val), i ^^^ (1 <<< a.val) ^^^ (1 <<< b.val),
      i ^^^ (1 <<< a.val) ^^^ (1 <<< b.val) ^^^ (1 <<< c.val)] := by
  have key : ∀ u v : ℕ, u ≠ v → i ^^^ u ≠ i ^^^ v := fun u v huv h => huv (Nat.xor_right_inj.mp h)
  have key0 : ∀ u : ℕ, u ≠ 0 → i ≠ i ^^^ u := by
    intro u hu h
    have h2 : i ^^^ 0 = i ^^^ u := by rw [Nat.xor_zero]; exact h
    exact hu (Nat.xor_right_inj.mp h2).symm
  have hfacts : (1 <<< a.val ≠ 0) ∧ (1 <<< a.val ^^^ (1 <<< b.val) ≠ 0) ∧
      (1 <<< a.val ^^^ (1 <<< b.val ^^^ 1 <<< c.val) ≠ 0) ∧
      (1 <<< a.val ≠ 1 <<< a.val ^^^ 1 <<< b.val) ∧
      (1 <<< a.val ≠ 1 <<< a.val ^^^ (1 <<< b.val ^^^ 1 <<< c.val)) ∧
      (1 <<< a.val ^^^ 1 <<< b.val ≠ 1 <<< a.val ^^^ (1 <<< b.val ^^^ 1 <<< c.val)) := by
    revert hab hac hbc
    revert a b c
    decide
  obtain ⟨f1, f2, f3, f4, f5, f6⟩ := hfacts
  simp only [Nat.xor_assoc]
  refine List.Pairwise.cons ?_ (List.Pairwise.cons ?_ (List.Pairwise.cons ?_
    (List.Pairwise.cons (fun x hx => absurd hx (List.not_mem_nil x)) List.Pairwise.nil)))
  · intro x hx
    simp only [List.mem_cons, List.not_mem_nil, or_false] at hx
    rcases hx with rfl | rfl | rfl
    · exact key0 _ f1
    · exact key0 _ f2
    · exact key0 _ f3
  · intro x hx
    simp only [List.mem_cons, List.not_mem_nil, or_false] at hx
    rcases hx with rfl | rfl
    · exact key _ _ f4
    · exact key _ _ f5
  · intro x hx
    simp only [List.mem_cons, List.not_mem_nil, or_false] at hx
    rcases hx with rfl
    exact key _ _ f6

theorem axis_pick_third : ∀ a b : Fin 3, a ≠ b → ∃ c, a ≠ c ∧ b ≠ c := by decide

theorem axis_pick_two : ∀ a : Fin 3, ∃ b c : Fin 3, a ≠ b ∧ a ≠ c ∧ b ≠ c := by decide

theorem axis_masks_nodup3 (i : ℕ) (a b : Fin 3) (hab : a ≠ b) :
    List.Nodup [i, i ^^^ (1 <<< a.val), i ^^^ (1 <<< a.val) ^^^ (1 <<< b.val)] := by
  obtain ⟨c, hac, hbc⟩ := axis_pick_third a b hab
  refine List.Nodup.sublist ?_ (axis_masks_nodup i a b c hab hac hbc)
  exact List.sublist_append_left _ [i ^^^ (1 <<< a.val) ^^^ (1 <<< b.val) ^^^ (1 <<< c.val)]

theorem axis_masks_nodup2 (i : ℕ) (a : Fin 3) :
    List.Nodup [i, i ^^^ (1 <<< a.val)] := by
  obtain ⟨b, c, hab, hac, hbc⟩ := axis_pick_two a
  refine List.Nodup.sublist ?_ (axis_masks_nodup i a b c hab hac hbc)
  exact List.sublist_append_left _ [i ^^^ (1 <<< a.val) ^^^ (1 <<< b.val),
    i ^^^ (1 <<< a.val) ^^^ (1 <<< b.val) ^^^ (1 <<< c.val)]

theorem travLoop_succ_none (o d mid : Vec3 ℚ) (taabb : ℚ) (fuel idx : ℕ) (tmin0 : ℚ)
    (h : stepSel o d mid taabb tmin0 = none) :
    travLoop o d mid taabb (fuel + 1) idx tmin0 = [idx] := by
  have he : travLoop o d mid taabb (fuel + 1) idx tmin0
      = idx :: (match stepSel o d mid taabb tmin0 with
          | none => []
          | some (a, t2) => travLoop o d mid taabb fuel (idx ^^^ (1 <<< a.val)) t2) := rfl
  rw [he, h]

theorem travLoop_succ_some (o d mid : Vec3 ℚ) (taabb : ℚ) (fuel idx : ℕ) (tmin0 : ℚ)
    (a : Fin 3) (t2 : ℚ) (h : stepSel o d mid taabb tmin0 = some (a, t2)) :
    travLoop o d mid taabb (fuel + 1) idx tmin0
      = idx :: travLoop o d mid taabb fuel (idx ^^^ (1 <<< a.val)) t2 := by
  have he : travLoop o d mid taabb (fuel + 1) idx tmin0
      = idx :: (match stepSel o d mid taabb tmin0 with
          | none => []
          | some (a, t2) => travLoop o d mid taabb fuel (idx ^^^ (1 <<< a.val)) t2) := rfl
  rw [he, h]

theorem travLoop_zero (o d mid : Vec3 ℚ) (taabb : ℚ) (idx : ℕ) (tmin0 : ℚ) :
    travLoop o d mid taabb 0 idx tmin0 = [] := rfl

theorem travLoop_one (o d mid : Vec3 ℚ) (taabb : ℚ) (idx : ℕ) (tmin0 : ℚ) :
    travLoop o d mid taabb 1 idx tmin0 = [idx] := by
  rcases h : stepSel o d mid taabb tmin0 with _ | ⟨a, t2⟩
  · exact travLoop_succ_none o d mid taabb 0 idx tmin0 h
  · rw [travLoop_succ_some o d mid taabb 0 idx tmin0 a t2 h, travLoop_zero]

theorem travLoop_spec (o d mid : Vec3 ℚ) (taabb tmin0 : ℚ) (idx : ℕ) :
    (travLoop o d mid taabb 4 idx tmin0).length ≤ 4 ∧
      (travLoop o d mid taabb 4 idx tmin0).Nodup ∧
      (idx < 8 → ∀ x ∈ travLoop o d mid taabb 4 idx tmin0, x < 8) := by
  rcases h1 : stepSel o d mid taabb tmin0 with _ | ⟨a1, t1⟩
  · have hlist : travLoop o d mid taabb 4 idx tmin0 = [idx] :=
      travLoop_succ_none o d mid taabb 3 idx tmin0 h1
    rw [hlist]
    refine ⟨by simp, by simp, ?_⟩
    intro h x hx
    simp only [List.mem_singleton] at hx
    rw [hx]; exact h
  · obtain ⟨⟨hc1, hta1, htm1, hax1⟩, _⟩ := stepSel_some_char o d mid taabb tmin0 a1 t1 h1
    rcases h2 : stepSel o d mid taabb t1 with _ | ⟨a2, t2⟩
    · have hlist : travLoop o d mid taabb 4 idx tmin0 = [idx, idx ^^^ (1 <<< a1.val)] := by
        rw [travLoop_succ_some o d mid taabb 3 idx tmin0 a1 t1 h1,
          travLoop_succ_none o d mid taabb 2 _ t1 h2]
      rw [hlist]
      refine ⟨by simp, axis_masks_nodup2 idx a1, ?_⟩
      intro h x hx
      simp only [List.mem_cons, List.not_mem_nil, or_false] at hx
      rcases hx with rfl | rfl
      · exact h
      · exact xor_axis_lt8 idx h a1
    · obtain ⟨⟨hc2, hta2, htm2, hax2⟩, _⟩ := stepSel_some_char o d mid taabb t1 a2 t2 h2
      have ha12 : a1 ≠ a2 := by
        intro he
        rw [he, ← hax2] at hax1
        rw [hax1] at htm2
        exact lt_irrefl _ htm2
      rcases h3 : stepSel o d mid taabb t2 with _ | ⟨a3, t3⟩
      · have hlist : travLoop o d mid taabb 4 idx tmin0
            = [idx, idx ^^^ (1 <<< a1.val), idx ^^^ (1 <<< a1.val) ^^^ (1 <<< a2.val)] := by
          rw [travLoop_succ_some o d mid taabb 3 idx tmin0 a1 t1 h1,
            travLoop_succ_some o d mid taabb 2 _ t1 a2 t2 h2,
            travLoop_succ_none o d mid taabb 1 _ t2 h3]
        rw [hlist]
        refine ⟨by simp, axis_masks_nodup3 idx a1 a2 ha12, ?_⟩
        intro h x hx
        simp only [List.mem_cons, List.not_mem_nil, or_false] at hx
        rcases hx with rfl | rfl | rfl
        · exact h
        · exact xor_axis_lt8 idx h a1
        · exact xor_axis_lt8 _ (xor_axis_lt8 idx h a1) a2
      · obtain ⟨⟨hc3, hta3, htm3, hax3⟩, _⟩ := stepSel_some_char o d mid taabb t2 a3 t3 h3
        have ha13 : a1 ≠ a3 := by
          intro he
          rw [he, ← hax3] at hax1
          rw [hax1] at htm2
          exact lt_irrefl _ (lt_trans htm2 htm3)
        have ha23 : a2 ≠ a3 := by
          intro he
          rw [he, ← hax3] at hax2
          rw [hax2] at htm3
          exact lt_irrefl _ htm3
        have hlist : travLoop o d mid taabb 4 idx tmin0
            = [idx, idx ^^^ (1 <<< a1.val), idx ^^^ (1 <<< a1.val) ^^^ (1 <<< a2.val),
                idx ^^^ (1 <<< a1.val) ^^^ (1 <<< a2.val) ^^^ (1 <<< a3.val)] := by
          rw [travLoop_succ_some o d mid taabb 3 idx tmin0 a1 t1 h1,
            travLoop_succ_some o d mid taabb 2 _ t1 a2 t2 h2,
            travLoop_succ_some o d mid taabb 1 _ t2 a3 t3 h3, travLoop_one]
        rw [hlist]
        refine ⟨by simp, axis_masks_nodup idx a1 a2 a3 ha12 ha13 ha23, ?_⟩
        intro h x hx
        simp only [List.mem_cons, List.not_mem_nil, or_false] at hx
        rcases hx with rfl | rfl | rfl | rfl
        · exact h
        · exact xor_axis_lt8 idx h a1
        · exact xor_axis_lt8 _ (xor_axis_lt8 idx h a1) a2
        · exact xor_axis_lt8 _ (xor_axis_lt8 _ (xor_axis_lt8 idx h a1) a2) a3

theorem nearestNode_lt8 (p mid : Vec3 ℚ) : nearestNode p mid < 8 := by
  unfold nearestNode
  split_ifs <;> norm_num

/-- C1: in the ordered traversal loop of `AABB::intercept`, whenever the visit
of the current child finds no hit, the selection step returns (i) a midplane
crossing that lies strictly beyond the node entry parameter `t_aabb` and is
the plane's exact crossing parameter, minimal among all such crossings still
ahead of the moving lower bound; (ii) the loop then flips exactly the
corresponding axis bit of the child index; (iii) it terminates exactly when
no crossing lies beyond the entry parameter (and the current bound); and
(iv) starting from `nearest_node` of the entry point it visits at most four
children, all distinct and all among the eight child indices. -/
theorem aabb_intercept_traversal (o d mid : Vec3 ℚ) (taabb tmin : ℚ) :
    (∀ tmin0 a t2, stepSel o d mid taabb tmin0 = some (a, t2) →
        (crossT o d mid tmin0 a = some t2 ∧ taabb < t2 ∧ t2 = tAxis o d mid a) ∧
          ∀ b tb, crossT o d mid tmin0 b = some tb → taabb < tb → t2 ≤ tb) ∧
      (∀ tmin0, stepSel o d mid taabb tmin0 = none ↔
        ∀ b, ¬ validCross o d mid taabb tmin0 b) ∧
      (∀ fuel idx tmin0 a t2, stepSel o d mid taabb tmin0 = some (a, t2) →
        travLoop o d mid taabb (fuel + 1) idx tmin0
          = idx :: travLoop o d mid taabb fuel (idx ^^^ (1 <<< a.val)) t2) ∧
      (aabbVisit o d mid taabb tmin).length ≤ 4 ∧
      (aabbVisit o d mid taabb tmin).Nodup ∧
      ∀ x ∈ aabbVisit o d mid taabb tmin, x < 8 := by
  obtain ⟨hlen, hnodup, hlt⟩ :=
    travLoop_spec o d mid taabb tmin (nearestNode (o.add (d.muls taabb)) mid)
  refine ⟨?_, ?_, ?_, hlen, hnodup, hlt (nearestNode_lt8 _ _)⟩
  · intro tmin0 a t2 h
    obtain ⟨⟨hc, hta, _, hax⟩, hmin⟩ := stepSel_some_char o d mid taabb tmin0 a t2 h
    exact ⟨⟨hc, hta, hax⟩, hmin⟩
  · intro tmin0
    exact stepSel_none_iff o d mid taabb tmin0
  · intro fuel idx tmin0 a t2 h
    exact travLoop_succ_some o d mid taabb fuel idx tmin0 a t2 h

/-- Witness for `aabb_intercept_traversal`: a concrete ray through the box
midpoint `(1,2,3)` from the origin, whose first selected midplane is the
`yz` plane at parameter `1`. -/
theorem aabb_intercept_traversal_wit :
    stepSel ⟨0, 0, 0⟩ ⟨1, 1, 1⟩ ⟨1, 2, 3⟩ 0 0 = some (0, 1) ∧
      ((crossT ⟨0, 0, 0⟩ ⟨1, 1, 1⟩ ⟨1, 2, 3⟩ 0 0 = some 1 ∧ (0 : ℚ) < 1 ∧
          (1 : ℚ) = tAxis ⟨0, 0, 0⟩ ⟨1, 1, 1⟩ ⟨1, 2, 3⟩ 0) ∧
        ∀ b tb, crossT ⟨0, 0, 0⟩ ⟨1, 1, 1⟩ ⟨1, 2, 3⟩ 0 b = some tb → 0 < tb → 1 ≤ tb) := by
  have hs : stepSel ⟨0, 0, 0⟩ ⟨1, 1, 1⟩ ⟨1, 2, 3⟩ 0 0 = some (0, 1) := by
    norm_num [stepSel, selCore, crossT, planeIntercept, Vec3.dot, Vec3.sub, unitAxis,
      EPSILON, f64MAX]
  exact ⟨hs, (aabb_intercept_traversal ⟨0, 0, 0⟩ ⟨1, 1, 1⟩ ⟨1, 2, 3⟩ 0 0).1 0 0 1 hs⟩

/-- `RGB` in `src/color.rs`, generic in the scalar so that the adaptive
sampler (exact rationals) and the shading pipeline (reals) share it. -/
structure RGB (α : Type) where
  r : α
  g : α
  b : α
deriving DecidableEq, Repr

namespace RGB

variable {α : Type} [LinearOrderedField α]

/-- Componentwise nonnegativity, the property asserted by the `RGB`
operators. -/
def nonneg (c : RGB α) : Prop := 0 ≤ c.r ∧ 0 ≤ c.g ∧ 0 ≤ c.b

instance (c : RGB α) : Decidable c.nonneg := by
  unfold nonneg
  infer_instance

/-- `impl Add for RGB` (`src/color.rs` lines 18–34): asserts both operands
nonnegative (modelled as `none` on assertion failure), then adds
componentwise. -/
def addC (a b : RGB α) : Option (RGB α) :=
  if a.nonneg ∧ b.nonneg then some ⟨a.r + b.r, a.g + b.g, a.b + b.b⟩ else none

/-- `impl Mul<RGB> for RGB` (`src/color.rs` lines 36–51): asserts both
operands nonnegative, then multiplies componentwise. -/
def mulC (a b : RGB α) : Option (RGB α) :=
  if a.nonneg ∧ b.nonneg then some ⟨a.r * b.r, a.g * b.g, a.b * b.b⟩ else none

/-- `impl Mul<f32> for RGB` (`src/color.rs` lines 68–81): asserts the color
and the scalar nonnegative. -/
def mulF (a : RGB α) (k : α) : Option (RGB α) :=
  if a.nonneg ∧ 0 ≤ k then some ⟨a.r * k, a.g * k, a.b * k⟩ else none

/-- `impl Div<f32> for RGB` (`src/color.rs` lines 53–66): asserts the color
and the divisor nonnegative. -/
def divF (a : RGB α) (k : α) : Option (RGB α) :=
  if a.nonneg ∧ 0 ≤ k then some ⟨a.r / k, a.g / k, a.b / k⟩ else none

/-- `impl AddAssign<RGB> for RGB` (`src/color.rs` lines 83–91): componentwise
addition with no assertion. -/
def addAssign (a b : RGB α) : RGB α := ⟨a.r + b.r, a.g + b.g, a.b + b.b⟩

/-- `RGB::new` (`src/color.rs` lines 94–100). -/
def new : RGB α := ⟨0, 0, 0⟩

/-- `RGB::distance2` (`src/color.rs` lines 105–108): the max-component
absolute difference (Rust `f32::max` on these non-NaN values is `max`). -/
def distance2 (a b : RGB α) : α :=
  max (|a.b - b.b|) (max (|a.r - b.r|) (|a.g - b.g|))

/-- `RGB::difference` (`src/color.rs` lines 101–104): the average of the four
corner colors (through the asserting `Add` and `Mul<f32>` operators), then
the sum of the four max-component distances to that average. -/
def difference (c00 c01 c10 c11 : RGB α) : Option α := do
  let s1 ← addC c00 c01
  let s2 ← addC s1 c10
  let s3 ← addC s2 c11
  let avg ← mulF s3 (1 / 4)
  some (distance2 avg c00 + distance2 avg c01 + distance2 avg c10 + distance2 avg c11)

end RGB

/-- Rust `f32::trunc`: rounding toward zero. -/
def rustTrunc {α : Type} [LinearOrderedField α] [FloorRing α] (x : α) : α :=
  if x < 0 then (⌈x⌉ : ℤ) else (⌊x⌋ : ℤ)

/-- Rust `f32::fract`: `x - x.trunc()`. -/
def rustFract {α : Type} [LinearOrderedField α] [FloorRing α] (x : α) : α := x - rustTrunc x

/-- `Material::do_checker` in `src/material.rs`, lines 22–30: asserts
`self.checkered` (modelled as `none` when violated), computes the pattern
`((u*4).fract() > 0.5) ^ ((v*4).fract() > 0.5)`, and divides the color by 3
(through the asserting `Div<f32>`) when the pattern holds. -/
def doChecker {α : Type} [LinearOrderedField α] [FloorRing α]
    (checkered : Bool) (c : RGB α) (u v : α) : Option (RGB α) :=
  if !checkered then none
  else if xor (decide (rustFract (u * 4) > 1 / 2)) (decide (rustFract (v * 4) > 1 / 2)) then
    RGB.divF c 3
  else
    some c

/-- Modelled from the claim's words (for comparison with `doChecker`): return
`c/3` exactly when the binary parity of `floor(4u)` xor'd with the parity of
`floor(4v)` is true, else `c` unchanged. -/
def doCheckerSpec {α : Type} [LinearOrderedField α] [FloorRing α]
    (checkered : Bool) (c : RGB α) (u v : α) : Option (RGB α) :=
  if !checkered then none
  else if xor (decide (⌊4 * u⌋ % 2 = 1)) (decide (⌊4 * v⌋ % 2 = 1)) then
    RGB.divF c 3
  else
    some c

/-- C6 counterexample: at `u = 1/5, v = 0` with color `(3,3,3)` the code's
fract-based pattern is true (`fract(4/5) = 4/5 > 1/2`) and the color is
divided by 3, while the claimed floor-parity pattern is false
(`floor(4/5) = 0` is even), so the claim as stated is false. -/
theorem doChecker_cex :
    doChecker true (⟨3, 3, 3⟩ : RGB ℚ) (1 / 5) 0
      ≠ doCheckerSpec true (⟨3, 3, 3⟩ : RGB ℚ) (1 / 5) 0 := by
  have hfr : rustFract ((1 : ℚ) / 5 * 4) = 4 / 5 := by
    unfold rustFract rustTrunc
    norm_num
  have hfl : (⌊(4 : ℚ) * (1 / 5)⌋ : ℤ) = 0 := by norm_num
  unfold doChecker doCheckerSpec
  rw [hfr]
  norm_num [RGB.divF, RGB.nonneg, rustFract, rustTrunc, hfl]

/-- C6 (amended): for a checkered material and a componentwise nonnegative
summed color, `do_checker` returns `c/3` exactly when
`fract(4u) > 1/2` xor `fract(4v) > 1/2` (Rust `fract` truncates toward
zero), and returns `c` unchanged otherwise. -/
theorem doChecker_char {α : Type} [LinearOrderedField α] [FloorRing α]
    (c : RGB α) (u v : α) (hc : c.nonneg) :
    doChecker true c u v
      = some (if xor (decide (rustFract (u * 4) > 1 / 2)) (decide (rustFract (v * 4) > 1 / 2))
          then ⟨c.r / 3, c.g / 3, c.b / 3⟩ else c) := by
  unfold doChecker
  rcases Bool.eq_false_or_eq_true
      (xor (decide (rustFract (u * 4) > 1 / 2)) (decide (rustFract (v * 4) > 1 / 2))) with hx | hx <;>
    rw [hx] <;> simp [RGB.divF, hc]

/-- Witness for `doChecker_char`: `u = 1/5`, `v = 0`, color `(3,3,3)` over
`ℚ`, where the pattern holds and the result is `(1,1,1)`. -/
theorem doChecker_char_wit :
    (⟨3, 3, 3⟩ : RGB ℚ).nonneg ∧ doChecker true (⟨3, 3, 3⟩ : RGB ℚ) (1 / 5) 0 = some ⟨1, 1, 1⟩ := by
  have hc : (⟨3, 3, 3⟩ : RGB ℚ).nonneg := by norm_num [RGB.nonneg]
  refine ⟨hc, ?_⟩
  rw [doChecker_char (⟨3, 3, 3⟩ : RGB ℚ) (1 / 5) 0 hc]
  have hfr : rustFract ((1 : ℚ) / 5 * 4) = 4 / 5 := by
    unfold rustFract rustTrunc
    norm_num
  have hfr0 : rustFract ((0 : ℚ) * 4) = 0 := by
    unfold rustFract rustTrunc
    norm_num
  rw [hfr, hfr0]
  norm_num

/-- The final averaging `(c00 + c01 + c10 + c11) * 0.25` of
`RenderJob::calc_ray_box` (`src/render.rs` line 309), through the asserting
`Add` and `Mul<f32>` operators. -/
def avgOf (c00 c01 c10 c11 : RGB ℚ) : Option (RGB ℚ) := do
  let s1 ← RGB.addC c00 c01
  let s2 ← RGB.addC s1 c10
  let s3 ← RGB.addC s2 c11
  RGB.mulF s3 (1 / 4)

/-- `RenderJob::calc_ray_box` in `src/render.rs`, lines 278–310, with the
pure per-corner tracer abstracted (`trace_primary_ray`; the optional per-tile
memoization caches this pure function and does not change its value).  The
second component of the result is the number of `num_rays_sampling_max`
increments.  Without adaptive sampling a single center ray is traced.  With
it, the four corners are traced; below `adaptive_max_depth` the corner
difference is compared against `0.3` and, when exceeded, the four
sub-quadrants are computed recursively; at or above `adaptive_max_depth` the
counter is incremented.  In all cases the four current colors are
averaged. -/
def calcRayBox (tracer : ℚ → ℚ → RGB ℚ) (adaptive : Bool) (maxDepth : ℕ)
    (posU posV du dv : ℚ) (lvl : ℕ) : Option (RGB ℚ × ℕ) :=
  if !adaptive then some (tracer (posU + du / 2) (posV + dv / 2), 0)
  else
    let c00 := tracer posU posV
    let c01 := tracer posU (posV + dv)
    let c10 := tracer (posU + du) posV
    let c11 := tracer (posU + du) (posV + dv)
    if h : lvl < maxDepth then
      match RGB.difference c00 c01 c10 c11 with
      | none => none
      | some diffv =>
          if 3 / 10 < diffv then do
            let r00 ← calcRayBox tracer adaptive maxDepth posU posV (du / 2) (dv / 2) (lvl + 1)
            let r01 ← calcRayBox tracer adaptive maxDepth posU (posV + dv / 2) (du / 2) (dv / 2)
              (lvl + 1)
            let r10 ← calcRayBox tracer adaptive maxDepth (posU + du / 2) posV (du / 2) (dv / 2)
              (lvl + 1)
            let r11 ← calcRayBox tracer adaptive maxDepth (posU + du / 2) (posV + dv / 2)
              (du / 2) (dv / 2) (lvl + 1)
            let avg ← avgOf r00.1 r01.1 r10.1 r11.1
            some (avg, r00.2 + r01.2 + r10.2 + r11.2)
          else do
            let avg ← avgOf c00 c01 c10 c11
            some (avg, 0)
    else do
      let avg ← avgOf c00 c01 c10 c11
      some (avg, 1)
termination_by maxDepth - lvl
decreasing_by all_goals omega

/-- C3 counterexample: with a constant tracer (all four corners equal, so the
corner difference is `0`, not exceeding `0.3`) and `adaptive_max_depth = 0`,
the call at level `0` still increments the "hit max level" counter: the code
increments whenever `lvl >= adaptive_max_depth`, without testing
convergence, so the claim's "and the colors have not converged" is false. -/
theorem calcRayBox_cex :
    RGB.difference (RGB.new (α := ℚ)) RGB.new RGB.new RGB.new = some 0 ∧
      ¬ ((3 : ℚ) / 10 < 0) ∧
      calcRayBox (fun _ _ => RGB.new) true 0 0 0 1 1 0 = some (RGB.new, 1) := by
  refine ⟨?_, by norm_num, ?_⟩
  · simp [RGB.difference, RGB.addC, RGB.mulF, RGB.nonneg, RGB.new, RGB.distance2]
  · rw [calcRayBox]
    simp [avgOf, RGB.addC, RGB.mulF, RGB.nonneg, RGB.new]

/-- C3 (amended): with adaptive sampling on, `calc_ray_box` traces the four
corners `(u,v)`, `(u,v+dv)`, `(u+du,v)`, `(u+du,v+dv)`; below
`adaptive_max_depth` it recurses into the four half-size sub-quadrants and
returns their average exactly when the corner difference measure (the sum
over corners of the max-component distance to the corner average) exceeds
`0.3`, and returns the average of the corners otherwise; at or above
`adaptive_max_depth` it returns the corner average and increments the "hit
max level" counter regardless of whether the colors converged (this last
point amending the claim). -/
theorem calcRayBox_adaptive_char (tracer : ℚ → ℚ → RGB ℚ) (maxDepth : ℕ)
    (posU posV du dv : ℚ) (lvl : ℕ) :
    (∀ diffv, lvl < maxDepth →
      RGB.difference (tracer posU posV) (tracer posU (posV + dv)) (tracer (posU + du) posV)
          (tracer (posU + du) (posV + dv)) = some diffv →
      (3 / 10 < diffv →
        calcRayBox tracer true maxDepth posU posV du dv lvl = (do
          let r00 ← calcRayBox tracer true maxDepth posU posV (du / 2) (dv / 2) (lvl + 1)
          let r01 ← calcRayBox tracer true maxDepth posU (posV + dv / 2) (du / 2) (dv / 2)
            (lvl + 1)
          let r10 ← calcRayBox tracer true maxDepth (posU + du / 2) posV (du / 2) (dv / 2)
            (lvl + 1)
          let r11 ← calcRayBox tracer true maxDepth (posU + du / 2) (posV + dv / 2) (du / 2)
            (dv / 2) (lvl + 1)
          let avg ← avgOf r00.1 r01.1 r10.1 r11.1
          some (avg, r00.2 + r01.2 + r10.2 + r11.2))) ∧
      (¬ 3 / 10 < diffv →
        calcRayBox tracer true maxDepth posU posV du dv lvl = (do
          let avg ← avgOf (tracer posU posV) (tracer posU (posV + dv))
            (tracer (posU + du) posV) (tracer (posU + du) (posV + dv))
          some (avg, 0)))) ∧
    (maxDepth ≤ lvl →
      calcRayBox tracer true maxDepth posU posV du dv lvl = (do
        let avg ← avgOf (tracer posU posV) (tracer posU (posV + dv))
          (tracer (posU + du) posV) (tracer (posU + du) (posV + dv))
        some (avg, 1))) ∧
    (∀ c00 c01 c10 c11 : RGB ℚ, c00.nonneg → c01.nonneg → c10.nonneg → c11.nonneg →
      RGB.difference c00 c01 c10 c11 = some (
        RGB.distance2 ⟨(c00.r + c01.r + c10.r + c11.r) * (1 / 4),
            (c00.g + c01.g + c10.g + c11.g) * (1 / 4),
            (c00.b + c01.b + c10.b + c11.b) * (1 / 4)⟩ c00 +
          RGB.distance2 ⟨(c00.r + c01.r + c10.r + c11.r) * (1 / 4),
            (c00.g + c01.g + c10.g + c11.g) * (1 / 4),
            (c00.b + c01.b + c10.b + c11.b) * (1 / 4)⟩ c01 +
          RGB.distance2 ⟨(c00.r + c01.r + c10.r + c11.r) * (1 / 4),
            (c00.g + c01.g + c10.g + c11.g) * (1 / 4),
            (c00.b + c01.b + c10.b + c11.b) * (1 / 4)⟩ c10 +
          RGB.distance2 ⟨(c00.r + c01.r + c10.r + c11.r) * (1 / 4),
            (c00.g + c01.g + c10.g + c11.g) * (1 / 4),
            (c00.b + c01.b + c10.b + c11.b) * (1 / 4)⟩ c11)) := by
  refine ⟨?_, ?_, ?_⟩
  · intro diffv hl hd
    constructor
    · intro hgt
      rw [calcRayBox]
      simp only [Bool.not_true, Bool.false_eq_true, if_false, dif_pos hl, hd, if_pos hgt]
    · intro hle
      rw [calcRayBox]
      simp only [Bool.not_true, Bool.false_eq_true, if_false, dif_pos hl, hd, if_neg hle]
  · intro hge
    rw [calcRayBox]
    simp only [Bool.not_true, Bool.false_eq_true, if_false, dif_neg (not_lt.mpr hge)]
  · intro c00 c01 c10 c11 h00 h01 h10 h11
    obtain ⟨hr00, hg00, hb00⟩ := h00
    obtain ⟨hr01, hg01, hb01⟩ := h01
    obtain ⟨hr10, hg10, hb10⟩ := h10
    obtain ⟨hr11, hg11, hb11⟩ := h11
    have e1 : RGB.addC c00 c01 = some ⟨c00.r + c01.r, c00.g + c01.g, c00.b + c01.b⟩ := by
      unfold RGB.addC
      rw [if_pos ⟨⟨hr00, hg00, hb00⟩, hr01, hg01, hb01⟩]
    have e2 : RGB.addC ⟨c00.r + c01.r, c00.g + c01.g, c00.b + c01.b⟩ c10
        = some ⟨c00.r + c01.r + c10.r, c00.g + c01.g + c10.g, c00.b + c01.b + c10.b⟩ := by
      unfold RGB.addC
      rw [if_pos ⟨⟨show 0 ≤ c00.r + c01.r by linarith, show 0 ≤ c00.g + c01.g by linarith,
        show 0 ≤ c00.b + c01.b by linarith⟩, hr10, hg10, hb10⟩]
    have e3 : RGB.addC ⟨c00.r + c01.r + c10.r, c00.g + c01.g + c10.g, c00.b + c01.b + c10.b⟩ c11
        = some ⟨c00.r + c01.r + c10.r + c11.r, c00.g + c01.g + c10.g + c11.g,
            c00.b + c01.b + c10.b + c11.b⟩ := by
      unfold RGB.addC
      rw [if_pos ⟨⟨show 0 ≤ c00.r + c01.r + c10.r by linarith,
        show 0 ≤ c00.g + c01.g + c10.g by linarith,
        show 0 ≤ c00.b + c01.b + c10.b by linarith⟩, hr11, hg11, hb11⟩]
    have e4 : RGB.mulF ⟨c00.r + c01.r + c10.r + c11.r, c00.g + c01.g + c10.g + c11.g,
          c00.b + c01.b + c10.b + c11.b⟩ ((1 : ℚ) / 4)
        = some ⟨(c00.r + c01.r + c10.r + c11.r) * (1 / 4),
            (c00.g + c01.g + c10.g + c11.g) * (1 / 4),
            (c00.b + c01.b + c10.b + c11.b) * (1 / 4)⟩ := by
      unfold RGB.mulF
      rw [if_pos ⟨⟨show 0 ≤ c00.r + c01.r + c10.r + c11.r by linarith,
        show 0 ≤ c00.g + c01.g + c10.g + c11.g by linarith,
        show 0 ≤ c00.b + c01.b + c10.b + c11.b by linarith⟩, by norm_num⟩]
    unfold RGB.difference
    rw [e1]
    simp only [Option.bind_eq_bind, Option.some_bind]
    rw [e2]
    simp only [Option.some_bind]
    rw [e3]
    simp only [Option.some_bind]
    rw [e4]
    simp only [Option.some_bind]

/-- Witness for `calcRayBox_adaptive_char`: a constant tracer at level `0`
with `adaptive_max_depth = 1`; the corners converge, so the pixel is the
corner average with no counter increment. -/
theorem calcRayBox_adaptive_char_wit :
    (0 : ℕ) < 1 ∧
      RGB.difference (RGB.new (α := ℚ)) RGB.new RGB.new RGB.new = some 0 ∧
      ¬ (3 : ℚ) / 10 < 0 ∧
      calcRayBox (fun _ _ => RGB.new) true 1 0 0 1 1 0 = (do
        let avg ← avgOf RGB.new RGB.new RGB.new RGB.new
        some (avg, 0)) := by
  have hd : RGB.difference (RGB.new (α := ℚ)) RGB.new RGB.new RGB.new = some 0 := by
    simp [RGB.difference, RGB.addC, RGB.mulF, RGB.nonneg, RGB.new, RGB.distance2]
  refine ⟨by norm_num, hd, by norm_num, ?_⟩
  exact ((calcRayBox_adaptive_char (fun _ _ => RGB.new) 1 0 0 1 1 0).1 0 (by norm_num) hd).2
    (by norm_num)

noncomputable section

/-- `EPSILON` (`src/vec3.rs`) in the real model. -/
def epsR : ℝ := 1 / 1000000

/-- `f32::MAX`, the initial `tmax` of `RenderJob::trace_ray`
(`src/render.rs` line 100, `Float = f32`). -/
def f32MAXR : ℝ := (2 : ℝ) ^ 128 - 2 ^ 104

/-- `Vec3::norm` (`src/vec3.rs` lines 137–139): `sqrt (v · v)`. -/
def normR (v : Vec3 ℝ) : ℝ := Real.sqrt (v.dot v)

/-- `Vec3::normalize` (`src/vec3.rs` lines 143–147): `v / ‖v‖`.  The source
asserts `norm > 0`; the zero-norm case (where this model divides by zero,
yielding the zero vector) is outside the RGB assertions claimed here. -/
def normalizeR (v : Vec3 ℝ) : Vec3 ℝ := v.divs (normR v)

/-- `f32::atan2` as used by `Sphere::get_texture_2d` (`src/three_d.rs` line
212), the standard piecewise definition. -/
def atan2R (y x : ℝ) : ℝ :=
  if 0 < x then Real.arctan (y / x)
  else if x < 0 ∧ 0 ≤ y then Real.arctan (y / x) + Real.pi
  else if x < 0 ∧ y < 0 then Real.arctan (y / x) - Real.pi
  else if x = 0 ∧ 0 < y then Real.pi / 2
  else if x = 0 ∧ y < 0 then -Real.pi / 2
  else 0

/-- `Material` (`src/material.rs` lines 5–11) together with the `ks` and `ke`
fields referenced by `src/light.rs` line 56 and `src/render.rs` lines 138 and
190 (the snapshot's `material.rs` lags the call sites; `ks` is used as a
scalar, `ke` as a color). -/
structure Material where
  albedo : ℝ
  reflectivity : ℝ
  kd : RGB ℝ
  checkered : Bool
  ks : ℝ
  ke : RGB ℝ

/-- Out-of-range material lookup placeholder (`self.materials[id]` would
panic in Rust). -/
def defaultMaterial : Material := ⟨0, 0, RGB.new, false, 0, RGB.new⟩

/-- `Ray` (`src/lib.rs`): origin and direction (the cached reciprocal is only
used by the rational slab model). -/
structure RayR where
  orig : Vec3 ℝ
  dir : Vec3 ℝ

/-- The three light kinds of `src/light.rs`. -/
inductive Light : Type
  | ambient : RGB ℝ → ℝ → Light
  | spot : Vec3 ℝ → RGB ℝ → ℝ → Light
  | vector : Vec3 ℝ → RGB ℝ → ℝ → Light

namespace Light

/-- `Light::is_spot`. -/
def isSpot : Light → Bool
  | spot _ _ _ => true
  | _ => false

/-- `Light::get_vector` (`src/light.rs` lines 65–67, 97–103, 136–138). -/
def getVector (l : Light) (point : Vec3 ℝ) : Vec3 ℝ :=
  match l with
  | ambient _ _ => Vec3.zero
  | spot pos _ _ => point.sub pos
  | vector dir _ _ => dir.muls (-1)

/-- `Light::get_contrib` for the three kinds (`src/light.rs` lines 44–60,
89–92, 121–128), through the asserting RGB operators:
ambient is `kd * rgb * intensity`; the directional light multiplies that by
`min(n · dir, 0)^4` (`v_prod.powi(4)` with `v_prod = n·(−get_vector)` =
`n·dir` after the double negation); the spot light adds the diffuse term
`kd * max(n·u, 0)` (with `u` the unit vector toward the light) to the
specular term `rgb * ks * (u · normalize(reflect))^80` via the non-asserting
`AddAssign`, then scales by `intensity / (1 + d²)`. -/
def getContrib (l : Light) (ray : RayR) (mat : Material) (objPoint objNormal : Vec3 ℝ) :
    Option (RGB ℝ) :=
  match l with
  | ambient rgb intensity => do
      let x ← RGB.mulC mat.kd rgb
      RGB.mulF x intensity
  | vector dir rgb intensity => do
      let cRes ← RGB.mulC mat.kd rgb
      let cRes ← RGB.mulF cRes intensity
      let lightVec := ((vector dir rgb intensity).getVector objPoint).muls (-1)
      let vProd := min (objNormal.dot lightVec) 0
      RGB.mulF cRes (vProd ^ 4)
  | spot pos rgb intensity => do
      let lightVec := pos.sub objPoint
      let distSq := lightVec.dot lightVec
      let lightVecNorm := lightVec.divs (Real.sqrt distSq)
      let cRes ← RGB.mulF mat.kd (max (objNormal.dot lightVecNorm) 0)
      let reflDir := normalizeR (ray.dir.reflect objNormal)
      let spec0 ← RGB.mulF rgb mat.ks
      let spec ← RGB.mulF spec0 ((lightVecNorm.dot reflDir) ^ 80)
      let cSum := RGB.addAssign cRes spec
      let cInt ← RGB.mulF cSum intensity
      RGB.divF cInt (1 + distSq)

end Light

end

noncomputable section

/-- The surface variants dispatched by `RenderJob::trace_ray`
(`src/three_d.rs`): `Plane`, `Sphere`, `Triangle` (meshes delegate to the
octree and are treated in the rational model). -/
inductive Surface : Type
  | plane : Vec3 ℝ → Vec3 ℝ → ℕ → Surface
  | sphere : Vec3 ℝ → ℝ → ℕ → Surface
  | tri : Vec3 ℝ → Vec3 ℝ → Vec3 ℝ → ℕ → Surface

namespace Surface

/-- `Object::get_material_id`. -/
def matId : Surface → ℕ
  | plane _ _ m => m
  | sphere _ _ m => m
  | tri _ _ _ m => m

/-- `Object::intercept` for the three variants (`src/three_d.rs`:
`Plane::intercept` lines 146–167, `Sphere::intercept` lines 217–249,
`Triangle::intercept` lines 272–312): returns the hit flag together with the
final values of the `tmax` and `oid` out-parameters (none of these variants
writes `oid`). -/
def intercept (s : Surface) (ray : RayR) (tmin tmax : ℝ) (oid : ℕ) : Bool × ℝ × ℕ :=
  match s with
  | plane point normal _ =>
      let d := ray.dir.dot normal
      if |d| < epsR then (false, tmax, oid)
      else
        let t0 := ((point.sub ray.orig).dot normal) / d
        if t0 ≤ tmin ∨ tmax ≤ t0 then (false, tmax, oid)
        else (true, t0, oid)
  | sphere center radius _ =>
      let a := ray.dir.dot ray.dir
      let v0 := ray.orig.sub center
      let halfB := ray.dir.dot v0
      let v1 := center.sub ray.orig
      let c := v1.dot v1 - radius * radius
      let delta := halfB * halfB - a * c
      if delta < 0 then (false, tmax, oid)
      else
        let deltaSqrt := Real.sqrt delta
        let t1 := (-halfB - deltaSqrt) / a
        let t2 := (-halfB + deltaSqrt) / a
        if tmin < t1 ∧ t1 < tmax then (true, t1, oid)
        else if tmin < t2 ∧ t2 < tmax then (true, t2, oid)
        else (false, tmax, oid)
  | tri p0 p1 p2 _ =>
      let edge1 := p1.sub p0
      let edge2 := p2.sub p0
      let h := ray.dir.cross edge2
      let a := edge1.dot h
      if |a| < epsR then (false, tmax, oid)
      else
        let f := 1 / a
        let s0 := ray.orig.sub p0
        let u := f * s0.dot h
        if ¬(0 ≤ u ∧ u ≤ 1) then (false, tmax, oid)
        else
          let q := s0.cross edge1
          let v := f * ray.dir.dot q
          if v < 0 ∨ 1 < u + v then (false, tmax, oid)
          else
            let t := f * edge2.dot q
            if t < epsR then (false, tmax, oid)
            else if t ≤ tmin ∨ tmax ≤ t then (false, tmax, oid)
            else (true, t, oid)

/-- `Object::get_normal` for the three variants. -/
def getNormal (s : Surface) (point : Vec3 ℝ) (oid : ℕ) : Vec3 ℝ :=
  match s with
  | plane _ normal _ => normal
  | sphere center radius _ => (point.sub center).divs radius
  | tri p0 p1 p2 _ => normalizeR ((p1.sub p0).cross (p2.sub p0))

/-- `Object::get_texture_2d` for the three variants (`src/three_d.rs`:
planar projection with positive folding for `Plane`, latitude/longitude for
`Sphere`, zero for `Triangle`). -/
def getTexture2d (s : Surface) (point : Vec3 ℝ) : ℝ × ℝ :=
  match s with
  | plane ppoint _ _ =>
      let v := point.sub ppoint
      let vx := v.dot ⟨0, 1, 0⟩
      let vy := v.dot ⟨0, 0, 1⟩
      let vx := if vx < 0 then -vx + 1 / 8 else vx
      let vy := if vy < 0 then -vy + 1 / 8 else vy
      (vx, vy)
  | sphere center radius _ =>
      let v := (point.sub center).divs radius
      ((1 + atan2R v.y v.x / Real.pi) * (1 / 2), Real.arccos v.z / Real.pi)
  | tri _ _ _ _ => (0, 0)

end Surface

end

/-- C9: for each surface primitive (Sphere, Plane, Triangle), `intercept` is
a pure query except for tightening: when it returns false the `tmax` and
`oid` out-parameters are unchanged, and when it returns true the new `tmax`
lies strictly between `tmin` and the old `tmax` while `oid` is unchanged. -/
theorem intercept_contract (s : Surface) (ray : RayR) (tmin tmax : ℝ) (oid : ℕ) :
    ((Surface.intercept s ray tmin tmax oid).1 = false →
      (Surface.intercept s ray tmin tmax oid).2.1 = tmax ∧
        (Surface.intercept s ray tmin tmax oid).2.2 = oid) ∧
    ((Surface.intercept s ray tmin tmax oid).1 = true →
      tmin < (Surface.intercept s ray tmin tmax oid).2.1 ∧
        (Surface.intercept s ray tmin tmax oid).2.1 < tmax ∧
        (Surface.intercept s ray tmin tmax oid).2.2 = oid) := by
  cases s <;>
    simp only [Surface.intercept] <;>
    split_ifs <;>
    constructor <;>
    intro h <;>
    simp_all

/-- Witness for `intercept_contract`: a unit sphere hit from `(0,0,-2)`
along `+z` at parameter `1`, strictly between `tmin = 0` and `tmax = 10`,
with the sub-id untouched. -/
theorem intercept_contract_wit :
    (Surface.intercept (Surface.sphere ⟨0, 0, 0⟩ 1 0) ⟨⟨0, 0, -2⟩, ⟨0, 0, 1⟩⟩ 0 10 5).1 = true ∧
      (0 : ℝ) < (Surface.intercept (Surface.sphere ⟨0, 0, 0⟩ 1 0)
          ⟨⟨0, 0, -2⟩, ⟨0, 0, 1⟩⟩ 0 10 5).2.1 ∧
      (Surface.intercept (Surface.sphere ⟨0, 0, 0⟩ 1 0)
          ⟨⟨0, 0, -2⟩, ⟨0, 0, 1⟩⟩ 0 10 5).2.1 < 10 ∧
      (Surface.intercept (Surface.sphere ⟨0, 0, 0⟩ 1 0)
          ⟨⟨0, 0, -2⟩, ⟨0, 0, 1⟩⟩ 0 10 5).2.2 = 5 := by
  have heval : Surface.intercept (Surface.sphere ⟨0, 0, 0⟩ 1 0)
      ⟨⟨0, 0, -2⟩, ⟨0, 0, 1⟩⟩ 0 10 5 = (true, 1, 5) := by
    simp only [Surface.intercept, Vec3.dot, Vec3.sub]
    norm_num [Real.sqrt_one]
  refine ⟨by rw [heval], ?_⟩
  have h := (intercept_contract (Surface.sphere ⟨0, 0, 0⟩ 1 0)
      ⟨⟨0, 0, -2⟩, ⟨0, 0, 1⟩⟩ 0 10 5).2 (by rw [heval])
  exact h

namespace Vec3

theorem muls_neg_one_dot (a b : Vec3 ℝ) : (a.muls (-1)).dot b = -(a.dot b) := by
  simp only [muls, dot]
  ring

theorem sub_muls_neg_one (a b : Vec3 ℝ) : (a.sub b).muls (-1) = b.sub a := by
  simp only [muls, sub, mk.injEq]
  refine ⟨by ring, by ring, by ring⟩

theorem divs_muls_neg_one (a : Vec3 ℝ) (k : ℝ) :
    (a.muls (-1)).divs k = (a.divs k).muls (-1) := by
  simp only [muls, divs, mk.injEq]
  refine ⟨by ring, by ring, by ring⟩

theorem sub_dot_self_swap (a b : Vec3 ℝ) : (a.sub b).dot (a.sub b) = (b.sub a).dot (b.sub a) := by
  simp only [sub, dot]
  ring

theorem dot_self_nonneg (a : Vec3 ℝ) : 0 ≤ a.dot a := by
  simp only [dot]
  nlinarith [mul_self_nonneg a.x, mul_self_nonneg a.y, mul_self_nonneg a.z]

end Vec3

/-- C4: for a directional ("vec-light") light with nonnegative color and
intensity and a material with nonnegative diffuse color, the contribution is
`M.kd · L.color · L.intensity · max(0, N·(−L.dir))^4` componentwise: the code
computes `min(N·L.dir, 0)^4`, which equals the claimed
`max(0, N·(−L.dir))^4`, so the term vanishes exactly when the surface faces
away from the light. -/
theorem vecLight_contrib (dir : Vec3 ℝ) (rgb : RGB ℝ) (intensity : ℝ) (ray : RayR)
    (mat : Material) (objPoint objNormal : Vec3 ℝ)
    (hkd : mat.kd.nonneg) (hrgb : rgb.nonneg) (hint : 0 ≤ intensity) :
    Light.getContrib (Light.vector dir rgb intensity) ray mat objPoint objNormal
      = some ⟨mat.kd.r * rgb.r * intensity * (max 0 (objNormal.dot (dir.muls (-1)))) ^ 4,
          mat.kd.g * rgb.g * intensity * (max 0 (objNormal.dot (dir.muls (-1)))) ^ 4,
          mat.kd.b * rgb.b * intensity * (max 0 (objNormal.dot (dir.muls (-1)))) ^ 4⟩ := by
  obtain ⟨h1, h2, h3⟩ := hkd
  obtain ⟨h4, h5, h6⟩ := hrgb
  have e1 : RGB.mulC mat.kd rgb = some ⟨mat.kd.r * rgb.r, mat.kd.g * rgb.g, mat.kd.b * rgb.b⟩ := by
    unfold RGB.mulC
    rw [if_pos ⟨⟨h1, h2, h3⟩, h4, h5, h6⟩]
  have e2 : RGB.mulF ⟨mat.kd.r * rgb.r, mat.kd.g * rgb.g, mat.kd.b * rgb.b⟩ intensity
      = some ⟨mat.kd.r * rgb.r * intensity, mat.kd.g * rgb.g * intensity,
          mat.kd.b * rgb.b * intensity⟩ := by
    unfold RGB.mulF
    rw [if_pos ⟨⟨mul_nonneg h1 h4, mul_nonneg h2 h5, mul_nonneg h3 h6⟩, hint⟩]
  have hvp : ∀ x : ℝ, (min x 0) ^ 4 = (max 0 (-x)) ^ 4 := by
    intro x
    have hmx : max 0 (-x) = -(min x 0) := by
      rcases le_total x 0 with h | h
      · rw [min_eq_left h, max_eq_right (by linarith : (0 : ℝ) ≤ -x)]
      · rw [min_eq_right h, max_eq_left (by linarith : -x ≤ (0 : ℝ)), neg_zero]
    rw [hmx, Even.neg_pow (by decide)]
  have hlv : ((Light.vector dir rgb intensity).getVector objPoint).muls (-1) = dir := by
    show (dir.muls (-1)).muls (-1) = dir
    cases dir with
    | mk x y z =>
        simp only [Vec3.muls, Vec3.mk.injEq]
        refine ⟨by ring, by ring, by ring⟩
  show (do
      let cRes ← RGB.mulC mat.kd rgb
      let cRes ← RGB.mulF cRes intensity
      let lightVec := ((Light.vector dir rgb intensity).getVector objPoint).muls (-1)
      let vProd := min (objNormal.dot lightVec) 0
      RGB.mulF cRes (vProd ^ 4)) = _
  rw [e1]
  simp only [Option.bind_eq_bind, Option.some_bind]
  rw [e2]
  simp only [Option.some_bind, hlv]
  unfold RGB.mulF
  rw [if_pos ⟨⟨mul_nonneg (mul_nonneg h1 h4) hint, mul_nonneg (mul_nonneg h2 h5) hint,
    mul_nonneg (mul_nonneg h3 h6) hint⟩, by positivity⟩]
  rw [hvp (objNormal.dot dir)]
  have hnd : objNormal.dot (dir.muls (-1)) = -(objNormal.dot dir) := by
    simp only [Vec3.muls, Vec3.dot]
    ring
  rw [hnd]

/-- Witness for `vecLight_contrib`: a light shining down `(0,0,1)` on a
surface facing `(0,0,-1)` with `kd = (1, 1/2, 0)` and intensity `2` yields
`(2, 1, 0)`. -/
theorem vecLight_contrib_wit :
    (RGB.mk (1 : ℝ) (1 / 2) 0).nonneg ∧ (RGB.mk (1 : ℝ) 1 1).nonneg ∧ (0 : ℝ) ≤ 2 ∧
      Light.getContrib (Light.vector ⟨0, 0, 1⟩ ⟨1, 1, 1⟩ 2) ⟨⟨0, 0, 0⟩, ⟨0, 0, 1⟩⟩
          ⟨0, 0, ⟨1, 1 / 2, 0⟩, false, 0, RGB.new⟩ ⟨0, 0, 0⟩ ⟨0, 0, -1⟩
        = some ⟨2, 1, 0⟩ := by
  have hkd : (RGB.mk (1 : ℝ) (1 / 2) 0).nonneg := by norm_num [RGB.nonneg]
  have hrgb : (RGB.mk (1 : ℝ) 1 1).nonneg := by norm_num [RGB.nonneg]
  refine ⟨hkd, hrgb, by norm_num, ?_⟩
  rw [vecLight_contrib ⟨0, 0, 1⟩ ⟨1, 1, 1⟩ 2 ⟨⟨0, 0, 0⟩, ⟨0, 0, 1⟩⟩
    ⟨0, 0, ⟨1, 1 / 2, 0⟩, false, 0, RGB.new⟩ ⟨0, 0, 0⟩ ⟨0, 0, -1⟩ hkd hrgb (by norm_num)]
  norm_num [Vec3.dot, Vec3.muls]

noncomputable section

/-- Modelled from the claim's words for the spot/point light (for comparison
with `Light.getContrib`): with `v = P − L.pos`, `d² = v·v`, `u = v/√d²`, the
contribution `(M.kd·(N·(−u))⁺ + L.color·M.ks·(u·normalize(R.reflect(N)))^e) ·
L.intensity/(1+d²)`, where `e` stands for the claimed material shininess
exponent (the source material has no such field). -/
def spotContribSpec (e : ℕ) (pos : Vec3 ℝ) (rgb : RGB ℝ) (intensity : ℝ) (ray : RayR)
    (mat : Material) (P N : Vec3 ℝ) : RGB ℝ :=
  let v := P.sub pos
  let d2 := v.dot v
  let u := v.divs (Real.sqrt d2)
  let diffuse := max 0 (N.dot (u.muls (-1)))
  let specFac := mat.ks * (u.dot (normalizeR (ray.dir.reflect N))) ^ e
  ⟨(mat.kd.r * diffuse + rgb.r * specFac) * intensity / (1 + d2),
    (mat.kd.g * diffuse + rgb.g * specFac) * intensity / (1 + d2),
    (mat.kd.b * diffuse + rgb.b * specFac) * intensity / (1 + d2)⟩

end

theorem spot_contrib_eval (pos : Vec3 ℝ) (rgb : RGB ℝ) (intensity : ℝ) (ray : RayR)
    (mat : Material) (P N : Vec3 ℝ)
    (hkd : mat.kd.nonneg) (hrgb : rgb.nonneg) (hks : 0 ≤ mat.ks) (hint : 0 ≤ intensity) :
    Light.getContrib (Light.spot pos rgb intensity) ray mat P N
      = some (spotContribSpec 80 pos rgb intensity ray mat P N) := by
  obtain ⟨h1, h2, h3⟩ := hkd
  obtain ⟨h4, h5, h6⟩ := hrgb
  have hd2 : (P.sub pos).dot (P.sub pos) = (pos.sub P).dot (pos.sub P) :=
    Vec3.sub_dot_self_swap P pos
  have hu : ((P.sub pos).divs (Real.sqrt ((P.sub pos).dot (P.sub pos)))).muls (-1)
      = (pos.sub P).divs (Real.sqrt ((pos.sub P).dot (pos.sub P))) := by
    rw [hd2, ← Vec3.divs_muls_neg_one, Vec3.sub_muls_neg_one]
  have hdotneg : ∀ w z : Vec3 ℝ, (w.muls (-1)).dot z = -(w.dot z) := Vec3.muls_neg_one_dot
  have hmaxd : max 0 (N.dot (((P.sub pos).divs
        (Real.sqrt ((P.sub pos).dot (P.sub pos)))).muls (-1)))
      = max (N.dot ((pos.sub P).divs (Real.sqrt ((pos.sub P).dot (pos.sub P))))) 0 := by
    rw [hu, max_comm]
  have hu2 : ((pos.sub P).divs (Real.sqrt ((pos.sub P).dot (pos.sub P)))).muls (-1)
      = (P.sub pos).divs (Real.sqrt ((P.sub pos).dot (P.sub pos))) := by
    rw [show (pos.sub P).dot (pos.sub P) = (P.sub pos).dot (P.sub pos) from
      Vec3.sub_dot_self_swap pos P, ← Vec3.divs_muls_neg_one, Vec3.sub_muls_neg_one]
  have hupow : ((P.sub pos).divs (Real.sqrt ((P.sub pos).dot (P.sub pos)))).dot
        (normalizeR (ray.dir.reflect N)) ^ 80
      = ((pos.sub P).divs (Real.sqrt ((pos.sub P).dot (pos.sub P)))).dot
        (normalizeR (ray.dir.reflect N)) ^ 80 := by
    have hneg : ((P.sub pos).divs (Real.sqrt ((P.sub pos).dot (P.sub pos)))).dot
          (normalizeR (ray.dir.reflect N))
        = -(((pos.sub P).divs (Real.sqrt ((pos.sub P).dot (pos.sub P)))).dot
            (normalizeR (ray.dir.reflect N))) := by
      rw [← hu2, hdotneg]
    rw [hneg, Even.neg_pow (by decide)]
  -- evaluate the monadic code path
  have hM : 0 ≤ max (N.dot ((pos.sub P).divs (Real.sqrt ((pos.sub P).dot (pos.sub P))))) 0 :=
    le_max_right _ _
  have e1 : RGB.mulF mat.kd
        (max (N.dot ((pos.sub P).divs (Real.sqrt ((pos.sub P).dot (pos.sub P))))) 0)
      = some ⟨mat.kd.r * max (N.dot ((pos.sub P).divs
            (Real.sqrt ((pos.sub P).dot (pos.sub P))))) 0,
          mat.kd.g * max (N.dot ((pos.sub P).divs
            (Real.sqrt ((pos.sub P).dot (pos.sub P))))) 0,
          mat.kd.b * max (N.dot ((pos.sub P).divs
            (Real.sqrt ((pos.sub P).dot (pos.sub P))))) 0⟩ := by
    unfold RGB.mulF
    rw [if_pos ⟨⟨h1, h2, h3⟩, hM⟩]
  have e2 : RGB.mulF rgb mat.ks = some ⟨rgb.r * mat.ks, rgb.g * mat.ks, rgb.b * mat.ks⟩ := by
    unfold RGB.mulF
    rw [if_pos ⟨⟨h4, h5, h6⟩, hks⟩]
  have e3 : RGB.mulF ⟨rgb.r * mat.ks, rgb.g * mat.ks, rgb.b * mat.ks⟩
        (((pos.sub P).divs (Real.sqrt ((pos.sub P).dot (pos.sub P)))).dot
          (normalizeR (ray.dir.reflect N)) ^ 80)
      = some ⟨rgb.r * mat.ks * (((pos.sub P).divs
            (Real.sqrt ((pos.sub P).dot (pos.sub P)))).dot
            (normalizeR (ray.dir.reflect N)) ^ 80),
          rgb.g * mat.ks * (((pos.sub P).divs
            (Real.sqrt ((pos.sub P).dot (pos.sub P)))).dot
            (normalizeR (ray.dir.reflect N)) ^ 80),
          rgb.b * mat.ks * (((pos.sub P).divs
            (Real.sqrt ((pos.sub P).dot (pos.sub P)))).dot
            (normalizeR (ray.dir.reflect N)) ^ 80)⟩ := by
    unfold RGB.mulF
    rw [if_pos ⟨⟨mul_nonneg h4 hks, mul_nonneg h5 hks, mul_nonneg h6 hks⟩, by positivity⟩]
  unfold Light.getContrib
  simp only [Option.bind_eq_bind, Option.some_bind, e1, e2, e3, RGB.addAssign]
  have ppow : (0 : ℝ) ≤ ((pos.sub P).divs
      (Real.sqrt ((pos.sub P).dot (pos.sub P)))).dot (normalizeR (ray.dir.reflect N)) ^ 80 := by
    positivity
  have pA : 0 ≤ mat.kd.r * (max (N.dot ((pos.sub P).divs
        (Real.sqrt ((pos.sub P).dot (pos.sub P))))) 0) +
      rgb.r * mat.ks * (((pos.sub P).divs (Real.sqrt ((pos.sub P).dot (pos.sub P)))).dot
        (normalizeR (ray.dir.reflect N)) ^ 80) :=
    add_nonneg (mul_nonneg h1 hM) (mul_nonneg (mul_nonneg h4 hks) ppow)
  have pB : 0 ≤ mat.kd.g * (max (N.dot ((pos.sub P).divs
        (Real.sqrt ((pos.sub P).dot (pos.sub P))))) 0) +
      rgb.g * mat.ks * (((pos.sub P).divs (Real.sqrt ((pos.sub P).dot (pos.sub P)))).dot
        (normalizeR (ray.dir.reflect N)) ^ 80) :=
    add_nonneg (mul_nonneg h2 hM) (mul_nonneg (mul_nonneg h5 hks) ppow)
  have pC : 0 ≤ mat.kd.b * (max (N.dot ((pos.sub P).divs
        (Real.sqrt ((pos.sub P).dot (pos.sub P))))) 0) +
      rgb.b * mat.ks * (((pos.sub P).divs (Real.sqrt ((pos.sub P).dot (pos.sub P)))).dot
        (normalizeR (ray.dir.reflect N)) ^ 80) :=
    add_nonneg (mul_nonneg h3 hM) (mul_nonneg (mul_nonneg h6 hks) ppow)
  unfold RGB.mulF RGB.divF
  split_ifs with hc1
  · simp only [Option.some_bind]
    split_ifs with hc2
    · unfold spotContribSpec
      simp only [Option.some.injEq, RGB.mk.injEq]
      rw [hmaxd, hupow, hd2]
      refine ⟨by ring, by ring, by ring⟩
    · exact absurd ⟨⟨mul_nonneg pA hint, mul_nonneg pB hint, mul_nonneg pC hint⟩,
        by linarith [Vec3.dot_self_nonneg (pos.sub P)]⟩ hc2
  · exact absurd ⟨⟨pA, pB, pC⟩, hint⟩ hc1

/-- C5 (amended): the spot-light contribution follows the claimed formula
with the specular exponent being the hard-coded constant `80`
(`light_vec_norm.dot(dir).powi(80)` in `src/light.rs` line 56), not a
material shininess field (which the material does not have); the lobe taken
along `−u` in the code equals the claim's lobe along `u` because the
exponent is even. -/
theorem spotLight_contrib (pos : Vec3 ℝ) (rgb : RGB ℝ) (intensity : ℝ) (ray : RayR)
    (mat : Material) (P N : Vec3 ℝ)
    (hkd : mat.kd.nonneg) (hrgb : rgb.nonneg) (hks : 0 ≤ mat.ks) (hint : 0 ≤ intensity) :
    Light.getContrib (Light.spot pos rgb intensity) ray mat P N
      = some (spotContribSpec 80 pos rgb intensity ray mat P N) :=
  spot_contrib_eval pos rgb intensity ray mat P N hkd hrgb hks hint

/-- C5 counterexample: for a concrete geometry (light at `(0,3,4)`, hit point
at the origin, unit normal `z`, view ray down `z`, `ks = 1`, `kd = 0`,
intensity `26`) the code's contribution is `(4/5)^80` per channel while the
claimed formula with a material shininess of `4` gives `(4/5)^4`; the
exponent is the hard-coded `80`, not a material field. -/
theorem spotLight_contrib_cex :
    Light.getContrib (Light.spot ⟨0, 3, 4⟩ ⟨1, 1, 1⟩ 26) ⟨⟨0, 0, 0⟩, ⟨0, 0, -1⟩⟩
        ⟨0, 0, RGB.new, false, 1, RGB.new⟩ ⟨0, 0, 0⟩ ⟨0, 0, 1⟩
      ≠ some (spotContribSpec 4 ⟨0, 3, 4⟩ ⟨1, 1, 1⟩ 26 ⟨⟨0, 0, 0⟩, ⟨0, 0, -1⟩⟩
          ⟨0, 0, RGB.new, false, 1, RGB.new⟩ ⟨0, 0, 0⟩ ⟨0, 0, 1⟩) := by
  have hkd : (RGB.new (α := ℝ)).nonneg := by norm_num [RGB.nonneg, RGB.new]
  have hrgb : (RGB.mk (1 : ℝ) 1 1).nonneg := by norm_num [RGB.nonneg]
  rw [spot_contrib_eval ⟨0, 3, 4⟩ ⟨1, 1, 1⟩ 26 ⟨⟨0, 0, 0⟩, ⟨0, 0, -1⟩⟩
    ⟨0, 0, RGB.new, false, 1, RGB.new⟩ ⟨0, 0, 0⟩ ⟨0, 0, 1⟩ hkd hrgb (by norm_num) (by norm_num)]
  have hd2 : ((⟨0, 0, 0⟩ : Vec3 ℝ).sub ⟨0, 3, 4⟩).dot ((⟨0, 0, 0⟩ : Vec3 ℝ).sub ⟨0, 3, 4⟩)
      = 25 := by
    simp only [Vec3.sub, Vec3.dot]
    norm_num
  have hs25 : Real.sqrt 25 = 5 := by
    rw [show (25 : ℝ) = 5 ^ 2 by norm_num, Real.sqrt_sq (by norm_num : (0 : ℝ) ≤ 5)]
  have hrefl : normalizeR ((⟨0, 0, -1⟩ : Vec3 ℝ).reflect ⟨0, 0, 1⟩) = ⟨0, 0, 1⟩ := by
    have h1 : (⟨0, 0, -1⟩ : Vec3 ℝ).reflect ⟨0, 0, 1⟩ = ⟨0, 0, 1⟩ := by
      simp only [Vec3.reflect, Vec3.muls, Vec3.sub, Vec3.dot, Vec3.mk.injEq]
      norm_num
    rw [h1]
    unfold normalizeR normR
    simp only [Vec3.dot]
    norm_num [Real.sqrt_one, Vec3.divs]
  intro h
  injection h with h
  have hr := congrArg RGB.r h
  unfold spotContribSpec at hr
  simp only [hrefl, Vec3.sub, Vec3.dot, Vec3.divs, Vec3.muls, RGB.new] at hr
  norm_num at hr
  rw [hs25] at hr
  norm_num at hr

/-- Witness for `spotLight_contrib` at the counterexample's concrete
geometry. -/
theorem spotLight_contrib_wit :
    (RGB.new (α := ℝ)).nonneg ∧ (RGB.mk (1 : ℝ) 1 1).nonneg ∧ (0 : ℝ) ≤ 1 ∧ (0 : ℝ) ≤ 26 ∧
      Light.getContrib (Light.spot ⟨0, 3, 4⟩ ⟨1, 1, 1⟩ 26) ⟨⟨0, 0, 0⟩, ⟨0, 0, -1⟩⟩
          ⟨0, 0, RGB.new, false, 1, RGB.new⟩ ⟨0, 0, 0⟩ ⟨0, 0, 1⟩
        = some (spotContribSpec 80 ⟨0, 3, 4⟩ ⟨1, 1, 1⟩ 26 ⟨⟨0, 0, 0⟩, ⟨0, 0, -1⟩⟩
            ⟨0, 0, RGB.new, false, 1, RGB.new⟩ ⟨0, 0, 0⟩ ⟨0, 0, 1⟩) := by
  have hkd : (RGB.new (α := ℝ)).nonneg := by norm_num [RGB.nonneg, RGB.new]
  have hrgb : (RGB.mk (1 : ℝ) 1 1).nonneg := by norm_num [RGB.nonneg]
  exact ⟨hkd, hrgb, by norm_num, by norm_num,
    spotLight_contrib ⟨0, 3, 4⟩ ⟨1, 1, 1⟩ 26 ⟨⟨0, 0, 0⟩, ⟨0, 0, -1⟩⟩
      ⟨0, 0, RGB.new, false, 1, RGB.new⟩ ⟨0, 0, 0⟩ ⟨0, 0, 1⟩ hkd hrgb (by norm_num)
      (by norm_num)⟩

noncomputable section

/-- One step of the closest-hit scan of `RenderJob::trace_ray`
(`src/render.rs` lines 102–106): the surface is offered the shared `tmax`
and sub-id, and becomes the current hit candidate iff it reports a hit
(tightening `tmax`). -/
def hitStep (ray : RayR) (acc : Option Surface × ℝ × ℕ) (obj : Surface) :
    Option Surface × ℝ × ℕ :=
  let r := Surface.intercept obj ray epsR acc.2.1 acc.2.2
  if r.1 then (some obj, r.2.1, r.2.2) else acc

/-- The closest-hit fold of `RenderJob::trace_ray` (`src/render.rs` lines
99–106): `tmax` starts at `Float::MAX`, and `.filter(...).last()` keeps the
last surface that reported a hit, i.e. the one that tightened `tmax` last. -/
def hitFold (ray : RayR) (objs : List Surface) : Option Surface × ℝ × ℕ :=
  objs.foldl (hitStep ray) (none, f32MAXR, 0)

/-- The shadow scan for spot lights (`src/render.rs` lines 122–126): any
surface hit by the shadow ray with `tmin = EPSILON`, `tmax₀ = 1.0` occludes
the light (the `any` flag is irrelevant to these variants). -/
def shadowed (objs : List Surface) (lightRay : RayR) : Bool :=
  objs.any (fun obj => (Surface.intercept obj lightRay epsR 1 0).1)

/-- One light's contribution inside `trace_ray`'s fold over lights
(`src/render.rs` lines 114–131): non-spot lights contribute directly; a spot
light is shadow-tested first with the ray toward the light, contributing
black when occluded. -/
def lightContribShadowed (objs : List Surface) (l : Light) (ray : RayR) (mat : Material)
    (hitPoint hitNormal : Vec3 ℝ) : Option (RGB ℝ) :=
  if !l.isSpot then l.getContrib ray mat hitPoint hitNormal
  else if shadowed objs ⟨hitPoint, (l.getVector hitPoint).muls (-1)⟩ then some RGB.new
  else l.getContrib ray mat hitPoint hitNormal

/-- The parts of `RenderJob` read by `trace_ray`: the surface list, the
lights, the materials, the camera's vertical screen basis vector (for the
miss background), and `cfg.reflection_max_depth`. -/
structure RenderScene where
  objects : List Surface
  lights : List Light
  materials : List Material
  screenV : Vec3 ℝ
  reflectionMaxDepth : ℕ

/-- `RenderJob::trace_ray` (`src/render.rs` lines 94–162), through the
asserting RGB operators (`none` models an assertion failure): depth overflow
returns black; otherwise the closest hit is found by the tightening fold; on
a hit the lights are folded (spot lights shadow-tested), the checker is
applied for checkered materials, and for `ks > 0` the mirror ray is traced
recursively and mixed with weight `ks_mix = 0.1`; on a miss the white/cyan
background blend with parameter `|d·v̂ₛ|/‖d‖` is returned. -/
def traceRay (job : RenderScene) (ray : RayR) (depth : ℕ) : Option (RGB ℝ) :=
  if h : job.reflectionMaxDepth < depth then some RGB.new
  else
    match hitFold ray job.objects with
    | (some hitObj, t, sid) =>
        let hitPoint := ray.orig.add (ray.dir.muls t)
        let hitNormal := hitObj.getNormal hitPoint sid
        let mat := job.materials.getD hitObj.matId defaultMaterial
        (job.lights.foldl
            (fun accOpt light => do
              let acc ← accOpt
              let cl ← lightContribShadowed job.objects light ray mat hitPoint hitNormal
              RGB.addC acc cl)
            (some RGB.new)).bind
          (fun c0 =>
            (if mat.checkered then
                doChecker mat.checkered c0 (hitObj.getTexture2d hitPoint).1
                  (hitObj.getTexture2d hitPoint).2
              else some c0).bind
              (fun c1 =>
                if 0 < mat.ks then do
                  let cr ← traceRay job ⟨hitPoint, ray.dir.reflect hitNormal⟩ (depth + 1)
                  let a ← RGB.mulF c1 (1 - 1 / 10)
                  let b ← RGB.mulF cr (1 / 10)
                  RGB.addC a b
                else some c1))
    | (none, _, _) =>
        let sv := normalizeR job.screenV
        let s := |ray.dir.dot sv| / normR ray.dir
        do
          let a ← RGB.mulF ⟨1, 1, 1⟩ s
          let b ← RGB.mulF ⟨2 / 5, 3 / 5, 9 / 10⟩ (1 - s)
          RGB.addC a b
termination_by job.reflectionMaxDepth + 1 - depth
decreasing_by omega

end

/-- C2 counterexample: two geometrically identical planes with different
materials (red and green diffuse), one ambient light.  A ray hitting them at
the same parameter takes the first-listed plane (the later one fails the
strict `t < tmax` test), so swapping the list order changes the returned
color from red to green, refuting order-independence in the presence of
tied hit parameters. -/
theorem traceRay_perm_cex :
    List.Perm [Surface.plane ⟨0, 0, 0⟩ ⟨0, 0, 1⟩ 0, Surface.plane ⟨0, 0, 0⟩ ⟨0, 0, 1⟩ 1]
        [Surface.plane ⟨0, 0, 0⟩ ⟨0, 0, 1⟩ 1, Surface.plane ⟨0, 0, 0⟩ ⟨0, 0, 1⟩ 0] ∧
      traceRay
          ⟨[Surface.plane ⟨0, 0, 0⟩ ⟨0, 0, 1⟩ 0, Surface.plane ⟨0, 0, 0⟩ ⟨0, 0, 1⟩ 1],
            [Light.ambient ⟨1, 1, 1⟩ 1],
            [⟨0, 0, ⟨1, 0, 0⟩, false, 0, RGB.new⟩, ⟨0, 0, ⟨0, 1, 0⟩, false, 0, RGB.new⟩],
            ⟨0, 1, 0⟩, 5⟩
          ⟨⟨0, 0, 1⟩, ⟨0, 0, -1⟩⟩ 0
        ≠ traceRay
            ⟨[Surface.plane ⟨0, 0, 0⟩ ⟨0, 0, 1⟩ 1, Surface.plane ⟨0, 0, 0⟩ ⟨0, 0, 1⟩ 0],
              [Light.ambient ⟨1, 1, 1⟩ 1],
              [⟨0, 0, ⟨1, 0, 0⟩, false, 0, RGB.new⟩, ⟨0, 0, ⟨0, 1, 0⟩, false, 0, RGB.new⟩],
              ⟨0, 1, 0⟩, 5⟩
            ⟨⟨0, 0, 1⟩, ⟨0, 0, -1⟩⟩ 0 := by
  constructor
  · exact List.Perm.swap _ _ _
  · have hint1 : ∀ m : ℕ, Surface.intercept (Surface.plane ⟨0, 0, 0⟩ ⟨0, 0, 1⟩ m)
        ⟨⟨0, 0, 1⟩, ⟨0, 0, -1⟩⟩ epsR f32MAXR 0 = (true, 1, 0) := by
      intro m
      simp only [Surface.intercept, Vec3.dot, Vec3.sub]
      norm_num [epsR, f32MAXR]
    have hint2 : ∀ m : ℕ, Surface.intercept (Surface.plane ⟨0, 0, 0⟩ ⟨0, 0, 1⟩ m)
        ⟨⟨0, 0, 1⟩, ⟨0, 0, -1⟩⟩ epsR 1 0 = (false, 1, 0) := by
      intro m
      simp only [Surface.intercept, Vec3.dot, Vec3.sub]
      norm_num [epsR]
    have hfold1 : hitFold ⟨⟨0, 0, 1⟩, ⟨0, 0, -1⟩⟩
        [Surface.plane ⟨0, 0, 0⟩ ⟨0, 0, 1⟩ 0, Surface.plane ⟨0, 0, 0⟩ ⟨0, 0, 1⟩ 1]
        = (some (Surface.plane ⟨0, 0, 0⟩ ⟨0, 0, 1⟩ 0), 1, 0) := by
      unfold hitFold hitStep
      simp [List.foldl, hint1, hint2]
    have hfold2 : hitFold ⟨⟨0, 0, 1⟩, ⟨0, 0, -1⟩⟩
        [Surface.plane ⟨0, 0, 0⟩ ⟨0, 0, 1⟩ 1, Surface.plane ⟨0, 0, 0⟩ ⟨0, 0, 1⟩ 0]
        = (some (Surface.plane ⟨0, 0, 0⟩ ⟨0, 0, 1⟩ 1), 1, 0) := by
      unfold hitFold hitStep
      simp [List.foldl, hint1, hint2]
    rw [traceRay, traceRay]
    rw [dif_neg (by omega), dif_neg (by omega), hfold1, hfold2]
    simp only [List.foldl, lightContribShadowed, Light.isSpot, Light.getContrib,
      Surface.getNormal, Surface.matId, Surface.getTexture2d, List.getD, Bool.not_false,
      if_true, Option.bind_eq_bind, Option.some_bind, RGB.mulC, RGB.mulF, RGB.addC, RGB.new,
      RGB.nonneg]
    norm_num

noncomputable section

/-- The `tmax`-free hit candidate of a surface for a ray with
`tmin = EPSILON`: the parameter `intercept` would accept when `tmax` is large
enough.  For the sphere this is the first of the two roots `t1 ≤ t2`
exceeding `EPSILON` (the `find` on `[t1, t2]` at `src/three_d.rs` line 243);
for plane and triangle it is the single root when the geometric tests pass. -/
def candVal (s : Surface) (ray : RayR) : Option ℝ :=
  match s with
  | .plane point normal _ =>
      let d := ray.dir.dot normal
      if |d| < epsR then none
      else
        let t0 := ((point.sub ray.orig).dot normal) / d
        if t0 ≤ epsR then none else some t0
  | .sphere center radius _ =>
      let a := ray.dir.dot ray.dir
      let v0 := ray.orig.sub center
      let halfB := ray.dir.dot v0
      let v1 := center.sub ray.orig
      let c := v1.dot v1 - radius * radius
      let delta := halfB * halfB - a * c
      if delta < 0 then none
      else
        let deltaSqrt := Real.sqrt delta
        let t1 := (-halfB - deltaSqrt) / a
        let t2 := (-halfB + deltaSqrt) / a
        if epsR < t1 then some t1
        else if epsR < t2 then some t2
        else none
  | .tri p0 p1 p2 _ =>
      let edge1 := p1.sub p0
      let edge2 := p2.sub p0
      let h := ray.dir.cross edge2
      let a := edge1.dot h
      if |a| < epsR then none
      else
        let f := 1 / a
        let s0 := ray.orig.sub p0
        let u := f * s0.dot h
        if ¬(0 ≤ u ∧ u ≤ 1) then none
        else
          let q := s0.cross edge1
          let v := f * ray.dir.dot q
          if v < 0 ∨ 1 < u + v then none
          else
            let t := f * edge2.dot q
            if t ≤ epsR then none else some t

end

/-- `(x - s) / a ≤ (x + s) / a` for `a, s ≥ 0` (the sphere's two roots are
ordered; for `a = 0` both divisions are zero). -/
theorem divSubAdd (x s a : ℝ) (ha : 0 ≤ a) (hs : 0 ≤ s) :
    (x - s) / a ≤ (x + s) / a := by
  rcases eq_or_lt_of_le ha with h | h
  · rw [← h, div_zero, div_zero]
  · have hxs : x - s ≤ x + s := by linarith
    exact (div_le_div_right h).mpr hxs


/-- Characterization of `intercept` at `tmin = EPSILON` by the candidate:
a hit returns exactly the candidate when it passes the strict `t < tmax`
window, a candidate at or beyond `tmax` is rejected, and no candidate means
no hit; in the last two cases `tmax` and `oid` are untouched. -/
theorem intercept_cand_char (s : Surface) (ray : RayR) (tmax : ℝ) (oid : ℕ) :
    (∀ t, candVal s ray = some t → t < tmax →
        Surface.intercept s ray epsR tmax oid = (true, t, oid)) ∧
    (∀ t, candVal s ray = some t → tmax ≤ t →
        Surface.intercept s ray epsR tmax oid = (false, tmax, oid)) ∧
    (candVal s ray = none →
        Surface.intercept s ray epsR tmax oid = (false, tmax, oid)) := by
  cases s with
  | plane point normal m =>
      refine ⟨?_, ?_, ?_⟩ <;> simp only [candVal, Surface.intercept]
      · intro t hc hlt
        split_ifs at hc with h1 h2
        injection hc with hc
        subst hc
        split_ifs with g1
        · rcases g1 with g1 | g1
          · exact absurd g1 h2
          · linarith
        · rfl
      · intro t hc hge
        split_ifs at hc with h1 h2
        injection hc with hc
        subst hc
        split_ifs with g1
        · rfl
        · push_neg at g1
          linarith [g1.2]
      · intro hc
        split_ifs at hc with h1 h2
        · rw [if_pos h1]
        · rw [if_neg h1, if_pos (Or.inl h2)]
  | sphere center radius m =>
      have h12 := divSubAdd
        (-(ray.dir.dot (ray.orig.sub center)))
        (Real.sqrt ((ray.dir.dot (ray.orig.sub center)) *
            (ray.dir.dot (ray.orig.sub center)) -
          (ray.dir.dot ray.dir) *
            ((center.sub ray.orig).dot (center.sub ray.orig) -
              radius * radius)))
        (ray.dir.dot ray.dir) (Vec3.dot_self_nonneg _) (Real.sqrt_nonneg _)
      refine ⟨?_, ?_, ?_⟩ <;> simp only [candVal, Surface.intercept]
      · intro t hc hlt
        split_ifs at hc with h1 h2 h3
        · injection hc with hc
          subst hc
          split_ifs with g1 g2
          · rfl
          · exact absurd ⟨h2, hlt⟩ g1
          · exact absurd ⟨h2, hlt⟩ g1
        · injection hc with hc
          subst hc
          split_ifs with g1 g2
          · exact absurd g1.1 h2
          · rfl
          · exact absurd ⟨h3, hlt⟩ g2
      · intro t hc hge
        split_ifs at hc with h1 h2 h3
        · injection hc with hc
          subst hc
          split_ifs with g1 g2
          · linarith [g1.2]
          · linarith [g2.2]
          · rfl
        · injection hc with hc
          subst hc
          split_ifs with g1 g2
          · exact absurd g1.1 h2
          · linarith [g2.2]
          · rfl
      · intro hc
        split_ifs at hc with h1 h2 h3
        · rw [if_pos h1]
        · rw [if_neg h1]
          split_ifs with g1 g2
          · exact absurd g1.1 h2
          · exact absurd g2.1 h3
          · rfl
  | tri p0 p1 p2 m =>
      refine ⟨?_, ?_, ?_⟩ <;> simp only [candVal, Surface.intercept]
      · intro t hc hlt
        split_ifs at hc with h1 h2 h3 h4
        injection hc with hc
        subst hc
        split_ifs with g1 g2
        · exact absurd (le_of_lt g1) h4
        · rcases g2 with g2 | g2
          · exact absurd g2 h4
          · linarith
        · rfl
      · intro t hc hge
        split_ifs at hc with h1 h2 h3 h4
        injection hc with hc
        subst hc
        split_ifs with g1 g2
        · rfl
        · rfl
        · push_neg at g2
          linarith [g2.2]
      · intro hc
        split_ifs at hc with h1 h2 h3 h4
        · rw [if_pos h1]
        · rw [if_neg h1, if_neg (not_not_intro h2), if_pos h3]
        · rw [if_neg h1, if_neg (not_not_intro h2), if_neg h3]
          split_ifs with g1 g2 <;> first | rfl | exact absurd (Or.inl h4) g2
        · rw [if_neg h1, if_pos h2]

/-- One closest-hit step in candidate form: the surface replaces the current
best exactly when its candidate beats the shared `tmax`. -/
theorem hitStep_eq_cand (ray : RayR) (acc : Option Surface × ℝ × ℕ)
    (obj : Surface) :
    hitStep ray acc obj =
      match candVal obj ray with
      | some t => if t < acc.2.1 then (some obj, t, acc.2.2) else acc
      | none => acc := by
  rcases hc : candVal obj ray with _ | t
  · have h3 := (intercept_cand_char obj ray acc.2.1 acc.2.2).2.2 hc
    simp [hitStep, h3]
  · by_cases hlt : t < acc.2.1
    · have h1 := (intercept_cand_char obj ray acc.2.1 acc.2.2).1 t hc hlt
      simp [hitStep, h1, hlt]
    · have h2 := (intercept_cand_char obj ray acc.2.1 acc.2.2).2.1 t hc
        (le_of_not_lt hlt)
      simp [hitStep, h2, hlt]

/-- Two closest-hit steps commute when the two surfaces cannot produce the
same candidate parameter (or are the same surface). -/
theorem hitStep_comm (ray : RayR) (x y : Surface)
    (hd : ∀ t, candVal x ray = some t → candVal y ray = some t → x = y)
    (z : Option Surface × ℝ × ℕ) :
    hitStep ray (hitStep ray z x) y = hitStep ray (hitStep ray z y) x := by
  rcases hx : candVal x ray with _ | tx <;> rcases hy : candVal y ray with _ | ty
  · simp [hitStep_eq_cand, hx, hy]
  · simp [hitStep_eq_cand, hx, hy]
  · simp [hitStep_eq_cand, hx, hy]
  · by_cases he : tx = ty
    · subst he
      have hxe := hd tx hx hy
      subst hxe
      rfl
    · simp only [hitStep_eq_cand, hx, hy]
      rcases lt_trichotomy tx ty with hlt | heq | hgt
      · by_cases h1 : tx < z.2.1
        · rw [if_pos h1]
          rw [if_neg (show ¬ty < ((some x, tx, z.2.2) : Option Surface × ℝ × ℕ).2.1 from
            not_lt.mpr (le_of_lt hlt))]
          by_cases h2 : ty < z.2.1
          · rw [if_pos h2]
            rw [if_pos (show tx < ((some y, ty, z.2.2) : Option Surface × ℝ × ℕ).2.1 from hlt)]
          · rw [if_neg h2, if_pos h1]
        · have h2 : ¬ty < z.2.1 := fun hc2 => h1 (lt_trans hlt hc2)
          simp only [if_neg h1, if_neg h2]
      · exact absurd heq he
      · by_cases h2 : ty < z.2.1
        · rw [if_pos h2]
          rw [if_neg (show ¬tx < ((some y, ty, z.2.2) : Option Surface × ℝ × ℕ).2.1 from
            not_lt.mpr (le_of_lt hgt))]
          by_cases h1 : tx < z.2.1
          · rw [if_pos h1]
            rw [if_pos (show ty < ((some x, tx, z.2.2) : Option Surface × ℝ × ℕ).2.1 from hgt)]
          · rw [if_neg h1, if_pos h2]
        · rw [if_neg h2]
          by_cases h1 : tx < z.2.1
          · rw [if_pos h1]
            rw [if_neg (show ¬ty < ((some x, tx, z.2.2) : Option Surface × ℝ × ℕ).2.1 from
              fun hcon => h2 (lt_trans hcon h1))]
          · simp only [if_neg h1, if_neg h2]

/-- The closest-hit fold is order-independent when no two distinct listed
surfaces share a candidate parameter for the ray. -/
theorem hitFold_perm (ray : RayR) {l1 l2 : List Surface} (hp : l1.Perm l2)
    (hd : ∀ x ∈ l1, ∀ y ∈ l1, ∀ t,
        candVal x ray = some t → candVal y ray = some t → x = y) :
    hitFold ray l1 = hitFold ray l2 := by
  unfold hitFold
  exact hp.foldl_eq'
    (fun x hx y hy z => hitStep_comm ray x y (fun t hxt hyt => hd x hx y hy t hxt hyt) z) _

/-- The shadow scan is a bare existence test, hence order-independent. -/
theorem shadowed_perm (lr : RayR) {l1 l2 : List Surface} (hp : l1.Perm l2) :
    shadowed l1 lr = shadowed l2 lr := by
  unfold shadowed
  cases h1 : l1.any (fun obj => (Surface.intercept obj lr epsR 1 0).1) <;>
    cases h2 : l2.any (fun obj => (Surface.intercept obj lr epsR 1 0).1) <;> try rfl
  · rw [List.any_eq_true] at h2
    obtain ⟨x, hx, hpx⟩ := h2
    have : l1.any (fun obj => (Surface.intercept obj lr epsR 1 0).1) = true :=
      List.any_eq_true.mpr ⟨x, hp.mem_iff.mpr hx, hpx⟩
    rw [h1] at this
    exact Bool.noConfusion this
  · rw [List.any_eq_true] at h1
    obtain ⟨x, hx, hpx⟩ := h1
    have : l2.any (fun obj => (Surface.intercept obj lr epsR 1 0).1) = true :=
      List.any_eq_true.mpr ⟨x, hp.mem_iff.mp hx, hpx⟩
    rw [h2] at this
    exact Bool.noConfusion this

/-- C2 (amended): permuting the surface list leaves `trace_ray` unchanged
PROVIDED no two distinct listed surfaces can report the same hit parameter
for any ray (`.filter(...).last()` picks the first-listed surface on a tied
parameter, because later surfaces fail the strict `t < tmax` test, so exact
ties are order-dependent — see the counterexample); under that
tie-freeness hypothesis the closest hit, the shadow tests, and every
recursive reflection ray agree between the two orderings. -/
theorem traceRay_perm (objs objs' : List Surface) (lights : List Light)
    (mats : List Material) (sv : Vec3 ℝ) (rmax : ℕ)
    (hp : objs.Perm objs')
    (hd : ∀ r : RayR, ∀ x ∈ objs, ∀ y ∈ objs, ∀ t,
        candVal x r = some t → candVal y r = some t → x = y)
    (ray : RayR) (depth : ℕ) :
    traceRay ⟨objs, lights, mats, sv, rmax⟩ ray depth
      = traceRay ⟨objs', lights, mats, sv, rmax⟩ ray depth := by
  have key : ∀ n depth ray, rmax + 1 - depth ≤ n →
      traceRay ⟨objs, lights, mats, sv, rmax⟩ ray depth
        = traceRay ⟨objs', lights, mats, sv, rmax⟩ ray depth := by
    intro n
    induction n with
    | zero =>
        intro depth ray hn
        have hlt : rmax < depth := by omega
        rw [traceRay, traceRay]
        rw [dif_pos hlt, dif_pos hlt]
    | succ n ih =>
        intro depth ray hn
        by_cases hlt : rmax < depth
        · rw [traceRay, traceRay, dif_pos hlt, dif_pos hlt]
        · have hfold : hitFold ray objs = hitFold ray objs' :=
            hitFold_perm ray hp (hd ray)
          have hsh : ∀ lr : RayR, shadowed objs lr = shadowed objs' lr :=
            fun lr => shadowed_perm lr hp
          have hlcs : ∀ l mat hp2 hn2,
              lightContribShadowed objs l ray mat hp2 hn2
                = lightContribShadowed objs' l ray mat hp2 hn2 := by
            intro l mat hp2 hn2
            unfold lightContribShadowed
            rw [hsh]
          have hrec : ∀ r : RayR,
              traceRay ⟨objs, lights, mats, sv, rmax⟩ r (depth + 1)
                = traceRay ⟨objs', lights, mats, sv, rmax⟩ r (depth + 1) :=
            fun r => ih (depth + 1) r (by omega)
          rw [traceRay]
          conv_rhs => rw [traceRay]
          rw [dif_neg hlt, dif_neg hlt]
          simp only [hfold, hlcs, hrec]
  exact key (rmax + 1 - depth) depth ray le_rfl

/-- Witness for `traceRay_perm`: two parallel planes `z = 0` and `z = 1`
(same normal), whose plane candidates differ for every ray because the
numerators `(p - o)·n` differ by `1` while the denominator is shared. -/
theorem traceRay_perm_wit :
    traceRay
        ⟨[Surface.plane ⟨0, 0, 0⟩ ⟨0, 0, 1⟩ 0, Surface.plane ⟨0, 0, 1⟩ ⟨0, 0, 1⟩ 1],
          [], [], ⟨0, 1, 0⟩, 0⟩ ⟨⟨0, 0, 2⟩, ⟨0, 0, -1⟩⟩ 0
      = traceRay
          ⟨[Surface.plane ⟨0, 0, 1⟩ ⟨0, 0, 1⟩ 1, Surface.plane ⟨0, 0, 0⟩ ⟨0, 0, 1⟩ 0],
            [], [], ⟨0, 1, 0⟩, 0⟩ ⟨⟨0, 0, 2⟩, ⟨0, 0, -1⟩⟩ 0 := by
  have hd : ∀ r : RayR,
      ∀ x ∈ [Surface.plane ⟨0, 0, 0⟩ ⟨0, 0, 1⟩ 0, Surface.plane ⟨0, 0, 1⟩ ⟨0, 0, 1⟩ 1],
      ∀ y ∈ [Surface.plane ⟨0, 0, 0⟩ ⟨0, 0, 1⟩ 0, Surface.plane ⟨0, 0, 1⟩ ⟨0, 0, 1⟩ 1],
      ∀ t, candVal x r = some t → candVal y r = some t → x = y := by
    intro r x hx y hy t hxt hyt
    have key : ∀ u : ℝ, candVal (Surface.plane ⟨0, 0, 0⟩ ⟨0, 0, 1⟩ 0) r = some u →
        candVal (Surface.plane ⟨0, 0, 1⟩ ⟨0, 0, 1⟩ 1) r = some u → False := by
      intro u h0 h1
      simp only [candVal, Vec3.dot, Vec3.sub] at h0 h1
      split_ifs at h0 h1 with hc1 hc2 hc3
      injection h0 with h0
      injection h1 with h1
      have hdne : r.dir.x * 0 + r.dir.y * 0 + r.dir.z * 1 ≠ 0 := by
        intro hz
        rw [hz] at hc1
        norm_num [epsR] at hc1
      rw [← h1] at h0
      rw [div_eq_div_iff hdne hdne] at h0
      have hnum := mul_right_cancel₀ hdne h0
      linarith [hnum]
    simp only [List.mem_cons, List.not_mem_nil, or_false] at hx hy
    rcases hx with hx | hx <;> rcases hy with hy | hy <;> subst hx <;> subst hy
    · rfl
    · exact absurd (key t hxt hyt) (fun h => h)
    · exact absurd (key t hyt hxt) (fun h => h)
    · rfl
  exact traceRay_perm _ _ _ _ _ _ (List.Perm.swap _ _ _) hd _ 0

/-- `RGB::new` is componentwise nonnegative. -/
theorem new_nonneg {α : Type} [LinearOrderedField α] : (RGB.new (α := α)).nonneg :=
  ⟨le_refl 0, le_refl 0, le_refl 0⟩

/-- The asserting `Add` succeeds on nonnegative colors and preserves
nonnegativity. -/
theorem addC_some {α : Type} [LinearOrderedField α] {a b : RGB α}
    (ha : a.nonneg) (hb : b.nonneg) :
    ∃ c, RGB.addC a b = some c ∧ c.nonneg :=
  ⟨⟨a.r + b.r, a.g + b.g, a.b + b.b⟩, by rw [RGB.addC, if_pos ⟨ha, hb⟩],
    ⟨add_nonneg ha.1 hb.1, add_nonneg ha.2.1 hb.2.1, add_nonneg ha.2.2 hb.2.2⟩⟩

/-- The asserting `Mul<RGB>` succeeds on nonnegative colors and preserves
nonnegativity. -/
theorem mulC_some {α : Type} [LinearOrderedField α] {a b : RGB α}
    (ha : a.nonneg) (hb : b.nonneg) :
    ∃ c, RGB.mulC a b = some c ∧ c.nonneg :=
  ⟨⟨a.r * b.r, a.g * b.g, a.b * b.b⟩, by rw [RGB.mulC, if_pos ⟨ha, hb⟩],
    ⟨mul_nonneg ha.1 hb.1, mul_nonneg ha.2.1 hb.2.1, mul_nonneg ha.2.2 hb.2.2⟩⟩

/-- The asserting `Mul<f32>` succeeds on a nonnegative color and scalar and
preserves nonnegativity. -/
theorem mulF_some {α : Type} [LinearOrderedField α] {a : RGB α} {k : α}
    (ha : a.nonneg) (hk : 0 ≤ k) :
    ∃ c, RGB.mulF a k = some c ∧ c.nonneg :=
  ⟨⟨a.r * k, a.g * k, a.b * k⟩, by rw [RGB.mulF, if_pos ⟨ha, hk⟩],
    ⟨mul_nonneg ha.1 hk, mul_nonneg ha.2.1 hk, mul_nonneg ha.2.2 hk⟩⟩

/-- The asserting `Div<f32>` succeeds on a nonnegative color and divisor and
preserves nonnegativity. -/
theorem divF_some {α : Type} [LinearOrderedField α] {a : RGB α} {k : α}
    (ha : a.nonneg) (hk : 0 ≤ k) :
    ∃ c, RGB.divF a k = some c ∧ c.nonneg :=
  ⟨⟨a.r / k, a.g / k, a.b / k⟩, by rw [RGB.divF, if_pos ⟨ha, hk⟩],
    ⟨div_nonneg ha.1 hk, div_nonneg ha.2.1 hk, div_nonneg ha.2.2 hk⟩⟩

/-- The non-asserting `AddAssign` preserves nonnegativity. -/
theorem addAssign_nonneg {α : Type} [LinearOrderedField α] {a b : RGB α}
    (ha : a.nonneg) (hb : b.nonneg) : (RGB.addAssign a b).nonneg :=
  ⟨add_nonneg ha.1 hb.1, add_nonneg ha.2.1 hb.2.1, add_nonneg ha.2.2 hb.2.2⟩

/-- Nonnegativity of a light's stored color and intensity (what
`get_color`/`get_intensity` assert for spot lights, taken as a scene-wide
hypothesis). -/
def lightNonneg (l : Light) : Prop :=
  match l with
  | .ambient rgb i => rgb.nonneg ∧ 0 ≤ i
  | .spot _ rgb i => rgb.nonneg ∧ 0 ≤ i
  | .vector _ rgb i => rgb.nonneg ∧ 0 ≤ i

/-- Every light contribution succeeds and is nonnegative when the material's
`kd` is nonnegative, `ks ≥ 0`, and the light's color/intensity are
nonnegative. -/
theorem getContrib_some (l : Light) (ray : RayR) (mat : Material)
    (p n : Vec3 ℝ) (hkd : mat.kd.nonneg) (hks : 0 ≤ mat.ks)
    (hl : lightNonneg l) :
    ∃ c, Light.getContrib l ray mat p n = some c ∧ c.nonneg := by
  cases l with
  | ambient rgb i =>
      obtain ⟨hrgb, hi⟩ := hl
      obtain ⟨c1, he1, hn1⟩ := mulC_some hkd hrgb
      obtain ⟨c2, he2, hn2⟩ := mulF_some hn1 hi
      refine ⟨c2, ?_, hn2⟩
      simp only [Light.getContrib, Option.bind_eq_bind, he1, Option.some_bind, he2]
  | vector dir rgb i =>
      obtain ⟨hrgb, hi⟩ := hl
      obtain ⟨c1, he1, hn1⟩ := mulC_some hkd hrgb
      obtain ⟨c2, he2, hn2⟩ := mulF_some hn1 hi
      obtain ⟨c3, he3, hn3⟩ := mulF_some hn2
        (by positivity :
          (0 : ℝ) ≤ (min (n.dot (((Light.vector dir rgb i).getVector p).muls (-1))) 0) ^ 4)
      refine ⟨c3, ?_, hn3⟩
      simp only [Light.getContrib, Option.bind_eq_bind, he1, Option.some_bind, he2, he3]
  | spot pos rgb i =>
      obtain ⟨hrgb, hi⟩ := hl
      obtain ⟨c1, he1, hn1⟩ := mulF_some hkd
        (le_max_right (n.dot ((pos.sub p).divs (Real.sqrt ((pos.sub p).dot (pos.sub p))))) 0)
      obtain ⟨s0, he2, hn2⟩ := mulF_some hrgb hks
      obtain ⟨s1, he3, hn3⟩ := mulF_some hn2
        (by positivity :
          (0 : ℝ) ≤ (((pos.sub p).divs (Real.sqrt ((pos.sub p).dot (pos.sub p)))).dot
            (normalizeR (ray.dir.reflect n))) ^ 80)
      obtain ⟨c2, he4, hn4⟩ := mulF_some (addAssign_nonneg hn1 hn3) hi
      obtain ⟨c3, he5, hn5⟩ := divF_some hn4
        (by linarith [Vec3.dot_self_nonneg (pos.sub p)] :
          (0 : ℝ) ≤ 1 + (pos.sub p).dot (pos.sub p))
      refine ⟨c3, ?_, hn5⟩
      simp only [Light.getContrib, Option.bind_eq_bind, he1, Option.some_bind, he2, he3,
        he4, he5]

/-- The shadow-tested per-light contribution succeeds and is nonnegative
under the same hypotheses (a shadowed spot light contributes black). -/
theorem lightContribShadowed_some (objs : List Surface) (l : Light) (ray : RayR)
    (mat : Material) (p n : Vec3 ℝ) (hkd : mat.kd.nonneg) (hks : 0 ≤ mat.ks)
    (hl : lightNonneg l) :
    ∃ c, lightContribShadowed objs l ray mat p n = some c ∧ c.nonneg := by
  unfold lightContribShadowed
  split_ifs with h1 h2
  · exact getContrib_some l ray mat p n hkd hks hl
  · exact ⟨RGB.new, rfl, new_nonneg⟩
  · exact getContrib_some l ray mat p n hkd hks hl

/-- The fold over the lights list succeeds and is nonnegative from any
nonnegative accumulator. -/
theorem lightsFold_some (objs : List Surface) (ray : RayR) (mat : Material)
    (p n : Vec3 ℝ) (hkd : mat.kd.nonneg) (hks : 0 ≤ mat.ks)
    (lights : List Light) :
    (∀ l ∈ lights, lightNonneg l) → ∀ acc : RGB ℝ, acc.nonneg →
      ∃ c,
        (lights.foldl
            (fun accOpt light => do
              let acc ← accOpt
              let cl ← lightContribShadowed objs light ray mat p n
              RGB.addC acc cl)
            (some acc)) = some c ∧ c.nonneg := by
  induction lights with
  | nil =>
      intro _ acc hacc
      exact ⟨acc, rfl, hacc⟩
  | cons l ls ih =>
      intro hl acc hacc
      obtain ⟨cl, hcl, hcln⟩ :=
        lightContribShadowed_some objs l ray mat p n hkd hks (hl l (List.mem_cons_self _ _))
      obtain ⟨s, hs, hsn⟩ := addC_some hacc hcln
      obtain ⟨c, hc, hcn⟩ := ih (fun x hx => hl x (List.mem_cons_of_mem _ hx)) s hsn
      refine ⟨c, ?_, hcn⟩
      rw [← hc]
      simp only [List.foldl_cons, Option.bind_eq_bind, Option.some_bind, hcl, hs]

/-- For a nonnegative input color the checker either divides by `3` or keeps
the color, in both cases succeeding with a nonnegative result. -/
theorem doChecker_some {c : RGB ℝ} (hc : c.nonneg) (u v : ℝ) :
    ∃ d, doChecker true c u v = some d ∧ d.nonneg := by
  unfold doChecker
  simp only [Bool.not_true, Bool.false_eq_true, if_false]
  split_ifs with h1
  · exact divF_some hc (by norm_num)
  · exact ⟨c, rfl, hc⟩

/-- A predicate holding on every list member and on the default holds on any
`getD` lookup (`self.materials[id]` in the model). -/
theorem getD_prop {β : Type} (P : β → Prop) (l : List β) (d : β) (i : ℕ)
    (hl : ∀ x ∈ l, P x) (hd : P d) : P (l.getD i d) := by
  by_cases h : i < l.length
  · rw [List.getD_eq_getElem l d h]
    exact hl _ (List.getElem_mem h)
  · rw [List.getD_eq_default]
    · exact hd
    · omega

/-- Cauchy–Schwarz for the 3-component dot product (Lagrange identity). -/
theorem dot_sq_le (a b : Vec3 ℝ) : (a.dot b) ^ 2 ≤ (a.dot a) * (b.dot b) := by
  simp only [Vec3.dot]
  nlinarith [sq_nonneg (a.x * b.y - a.y * b.x), sq_nonneg (a.x * b.z - a.z * b.x),
    sq_nonneg (a.y * b.z - a.z * b.y)]

/-- `|a·b| ≤ ‖a‖‖b‖`. -/
theorem abs_dot_le (a b : Vec3 ℝ) : |a.dot b| ≤ normR a * normR b := by
  have h1 : |a.dot b| = Real.sqrt ((a.dot b) ^ 2) := (Real.sqrt_sq_eq_abs _).symm
  rw [h1]
  unfold normR
  rw [← Real.sqrt_mul (Vec3.dot_self_nonneg a)]
  exact Real.sqrt_le_sqrt (dot_sq_le a b)

/-- The normalized screen vector has norm at most `1` (exactly `1` when the
input is nonzero; the all-zero vector normalizes to zero in the model). -/
theorem normR_normalizeR_le_one (v : Vec3 ℝ) : normR (normalizeR v) ≤ 1 := by
  by_cases hv : normR v = 0
  · unfold normalizeR
    rw [hv]
    unfold normR
    simp only [Vec3.divs, Vec3.dot, div_zero]
    norm_num [Real.sqrt_zero]
  · have hpos : 0 < normR v := lt_of_le_of_ne (Real.sqrt_nonneg _) (Ne.symm hv)
    have hdot : (normalizeR v).dot (normalizeR v) = (v.dot v) / (normR v * normR v) := by
      unfold normalizeR
      simp only [Vec3.divs, Vec3.dot]
      field_simp
    have hsq : normR v * normR v = v.dot v := Real.mul_self_sqrt (Vec3.dot_self_nonneg v)
    unfold normR
    rw [hdot, hsq, div_self (by rw [← hsq]; positivity), Real.sqrt_one]

/-- The miss-branch blend parameter `s = |d·v̂ₛ|/‖d‖` lies in `[0, 1]`. -/
theorem blend_param_range (v d : Vec3 ℝ) :
    0 ≤ |d.dot (normalizeR v)| / normR d ∧ |d.dot (normalizeR v)| / normR d ≤ 1 := by
  constructor
  · exact div_nonneg (abs_nonneg _) (Real.sqrt_nonneg _)
  · by_cases hd : normR d = 0
    · rw [hd, div_zero]
      norm_num
    · have hpos : 0 < normR d := lt_of_le_of_ne (Real.sqrt_nonneg _) (Ne.symm hd)
      rw [div_le_one hpos]
      calc |d.dot (normalizeR v)| ≤ normR d * normR (normalizeR v) := abs_dot_le _ _
        _ ≤ normR d * 1 :=
            mul_le_mul_of_nonneg_left (normR_normalizeR_le_one v) (le_of_lt hpos)
        _ = normR d := mul_one _

/-- The white/cyan background blend always succeeds and is nonnegative. -/
theorem background_some (v d : Vec3 ℝ) :
    ∃ c,
      (do
        let a ← RGB.mulF (⟨1, 1, 1⟩ : RGB ℝ) (|d.dot (normalizeR v)| / normR d)
        let b ← RGB.mulF ⟨2 / 5, 3 / 5, 9 / 10⟩ (1 - |d.dot (normalizeR v)| / normR d)
        RGB.addC a b) = some c ∧ c.nonneg := by
  obtain ⟨hs0, hs1⟩ := blend_param_range v d
  obtain ⟨a1, ha1, ha1n⟩ := mulF_some
    (show (RGB.mk (1 : ℝ) 1 1).nonneg from by norm_num [RGB.nonneg]) hs0
  obtain ⟨b1, hb1, hb1n⟩ := mulF_some
    (show (RGB.mk (2 / 5 : ℝ) (3 / 5) (9 / 10)).nonneg from by norm_num [RGB.nonneg])
    (show (0 : ℝ) ≤ 1 - |d.dot (normalizeR v)| / normR d from by linarith)
  obtain ⟨c1, hc1, hc1n⟩ := addC_some ha1n hb1n
  refine ⟨c1, ?_, hc1n⟩
  simp only [Option.bind_eq_bind, ha1, Option.some_bind, hb1, hc1]

/-- C10 counterexample: a scene satisfying the claim's hypotheses (material
diffuse colors, light colors, light intensities all nonnegative) in which
`trace_ray` still trips an RGB assertion, because the material's unchecked
`ks` is negative: the spot light's specular factor `self.rgb * mat.ks`
asserts `rhs >= 0.0` in `Mul<f32>` and fails. -/
theorem traceRay_nonneg_cex :
    (∀ m ∈ [(⟨0, 0, RGB.new, false, -1, RGB.new⟩ : Material)], m.kd.nonneg) ∧
      (∀ l ∈ [Light.spot ⟨0, 0, 1⟩ ⟨1, 1, 1⟩ 1], lightNonneg l) ∧
      traceRay
          ⟨[Surface.plane ⟨0, 0, 0⟩ ⟨0, 0, 1⟩ 0], [Light.spot ⟨0, 0, 1⟩ ⟨1, 1, 1⟩ 1],
            [⟨0, 0, RGB.new, false, -1, RGB.new⟩], ⟨0, 1, 0⟩, 5⟩
          ⟨⟨0, 0, 1⟩, ⟨0, 0, -1⟩⟩ 0 = none := by
  refine ⟨?_, ?_, ?_⟩
  · intro m hm
    simp only [List.mem_singleton] at hm
    subst hm
    exact new_nonneg
  · intro l hl
    simp only [List.mem_singleton] at hl
    subst hl
    exact ⟨by norm_num [RGB.nonneg], by norm_num⟩
  · have hint : Surface.intercept (Surface.plane ⟨0, 0, 0⟩ ⟨0, 0, 1⟩ 0)
        ⟨⟨0, 0, 1⟩, ⟨0, 0, -1⟩⟩ epsR f32MAXR 0 = (true, 1, 0) := by
      simp only [Surface.intercept, Vec3.dot, Vec3.sub]
      norm_num [epsR, f32MAXR]
    have hfold : hitFold ⟨⟨0, 0, 1⟩, ⟨0, 0, -1⟩⟩ [Surface.plane ⟨0, 0, 0⟩ ⟨0, 0, 1⟩ 0]
        = (some (Surface.plane ⟨0, 0, 0⟩ ⟨0, 0, 1⟩ 0), 1, 0) := by
      unfold hitFold hitStep
      simp [List.foldl, hint]
    rw [traceRay, dif_neg (by omega), hfold]
    norm_num [Surface.matId, List.getD, Surface.getNormal, List.foldl_cons, List.foldl_nil,
      lightContribShadowed, Light.isSpot, shadowed, List.any_cons, List.any_nil,
      Surface.intercept, Light.getContrib, Light.getVector, Option.bind_eq_bind,
      Option.some_bind, Option.none_bind, RGB.mulF, RGB.new, RGB.nonneg, le_max_iff,
      Vec3.add, Vec3.muls, Vec3.sub, Vec3.dot, epsR]

/-- C10 (amended): when every material has a nonnegative diffuse color AND a
nonnegative specular scalar `ks` (the scene hypothesis the claim omits — see
the counterexample), and every light has nonnegative color and intensity,
`trace_ray` always returns a color with nonnegative components: no RGB
add/multiply/divide assertion can fail in any light contribution, checker
division, reflection mix, or the white/cyan background blend (whose
parameter `|d·v̂ₛ|/‖d‖` lies in `[0,1]`). -/
theorem traceRay_nonneg (job : RenderScene) (ray : RayR) (depth : ℕ)
    (hm : ∀ m ∈ job.materials, m.kd.nonneg ∧ 0 ≤ m.ks)
    (hl : ∀ l ∈ job.lights, lightNonneg l) :
    ∃ c, traceRay job ray depth = some c ∧ c.nonneg := by
  have key : ∀ n depth ray, job.reflectionMaxDepth + 1 - depth ≤ n →
      ∃ c, traceRay job ray depth = some c ∧ c.nonneg := by
    intro n
    induction n with
    | zero =>
        intro depth ray hn
        have hlt : job.reflectionMaxDepth < depth := by omega
        exact ⟨RGB.new, by rw [traceRay, dif_pos hlt], new_nonneg⟩
    | succ n ih =>
        intro depth ray hn
        by_cases hlt : job.reflectionMaxDepth < depth
        · exact ⟨RGB.new, by rw [traceRay, dif_pos hlt], new_nonneg⟩
        · rw [traceRay, dif_neg hlt]
          rcases hf : hitFold ray job.objects with ⟨o, t, sid⟩
          cases o with
          | none =>
              obtain ⟨c, hc, hcn⟩ := background_some job.screenV ray.dir
              refine ⟨c, ?_, hcn⟩
              simp only [hf]
              exact hc
          | some hobj =>
              simp only [hf]
              have hmat := getD_prop (fun m => m.kd.nonneg ∧ 0 ≤ m.ks)
                job.materials defaultMaterial hobj.matId hm ⟨new_nonneg, le_refl 0⟩
              obtain ⟨c0, hc0, hc0n⟩ := lightsFold_some job.objects ray
                (job.materials.getD hobj.matId defaultMaterial)
                (ray.orig.add (ray.dir.muls t))
                (hobj.getNormal (ray.orig.add (ray.dir.muls t)) sid)
                hmat.1 hmat.2 job.lights hl RGB.new new_nonneg
              rw [hc0]
              simp only [Option.some_bind]
              have hchk : ∃ c1,
                  (if (job.materials.getD hobj.matId defaultMaterial).checkered then
                      doChecker (job.materials.getD hobj.matId defaultMaterial).checkered c0
                        (hobj.getTexture2d (ray.orig.add (ray.dir.muls t))).1
                        (hobj.getTexture2d (ray.orig.add (ray.dir.muls t))).2
                    else some c0) = some c1 ∧ c1.nonneg := by
                by_cases hck : (job.materials.getD hobj.matId defaultMaterial).checkered
                · rw [if_pos hck, hck]
                  exact doChecker_some hc0n _ _
                · rw [if_neg hck]
                  exact ⟨c0, rfl, hc0n⟩
              obtain ⟨c1, hc1, hc1n⟩ := hchk
              rw [hc1]
              simp only [Option.some_bind]
              by_cases hks : 0 < (job.materials.getD hobj.matId defaultMaterial).ks
              · rw [if_pos hks]
                obtain ⟨cr, hcr, hcrn⟩ := ih (depth + 1)
                  ⟨ray.orig.add (ray.dir.muls t),
                    ray.dir.reflect (hobj.getNormal (ray.orig.add (ray.dir.muls t)) sid)⟩
                  (by omega)
                obtain ⟨a1, ha1, ha1n⟩ := mulF_some hc1n
                  (show (0 : ℝ) ≤ 1 - 1 / 10 by norm_num)
                obtain ⟨b1, hb1, hb1n⟩ := mulF_some hcrn
                  (show (0 : ℝ) ≤ 1 / 10 by norm_num)
                obtain ⟨cc, hcc, hccn⟩ := addC_some ha1n hb1n
                refine ⟨cc, ?_, hccn⟩
                simp only [Option.bind_eq_bind, hcr, Option.some_bind, ha1, hb1, hcc]
              · rw [if_neg hks]
                exact ⟨c1, rfl, hc1n⟩
  exact key (job.reflectionMaxDepth + 1 - depth) depth ray le_rfl

/-- Witness for `traceRay_nonneg`: a red diffuse plane under a white ambient
light, all materials and lights nonnegative with `ks = 0`. -/
theorem traceRay_nonneg_wit :
    ∃ c,
      traceRay
          ⟨[Surface.plane ⟨0, 0, 0⟩ ⟨0, 0, 1⟩ 0], [Light.ambient ⟨1, 1, 1⟩ 1],
            [⟨0, 0, ⟨1, 0, 0⟩, false, 0, RGB.new⟩], ⟨0, 1, 0⟩, 5⟩
          ⟨⟨0, 0, 1⟩, ⟨0, 0, -1⟩⟩ 0 = some c ∧ c.nonneg :=
  traceRay_nonneg _ _ _
    (by
      intro m hm
      simp only [List.mem_singleton] at hm
      subst hm
      exact ⟨⟨by norm_num, by norm_num, by norm_num⟩, le_refl 0⟩)
    (by
      intro l hl
      simp only [List.mem_singleton] at hl
      subst hl
      exact ⟨by norm_num [RGB.nonneg], by norm_num⟩)
